import Mathlib

/-!
Verification development for the habitipy dynamic API-path resolver and
request dispatcher (habitipy/api.py and habitipy/async.py).

Python strings are shallowly embedded as lists of characters (`Str`), so
that the character-level operations of the source (slicing, `split`,
`startswith`, `rstrip`, `replace`) become ordinary list functions.
Python dicts (which are insertion-ordered and keep the position of a key
on update) are embedded as association lists with an order-preserving
`updateA` operation.  Fallible Python code (exceptions) is embedded with
`Except`; warnings emitted through the `warnings` module are collected in
an explicit list.
-/

/-- Embedding of a Python string: a list of characters. -/
abbrev Str := List Char

/-- Lookup in an insertion-ordered dict embedded as an association list
(Python `d[k]` / `k in d`). -/
def lookupA {α : Type} : List (Str × α) → Str → Option α
  | [], _ => none
  | (k0, v0) :: rest, k => if k0 = k then some v0 else lookupA rest k

/-- Update of an insertion-ordered dict: `d[k] = v` keeps the position of an
existing key and appends a missing key at the end. -/
def updateA {α : Type} : List (Str × α) → Str → α → List (Str × α)
  | [], k, v => [(k, v)]
  | (k0, v0) :: rest, k, v =>
    if k0 = k then (k0, v) :: rest else (k0, v0) :: updateA rest k v

/-- Removal of a key (`d.pop(k)` discarding the value). -/
def eraseA {α : Type} : List (Str × α) → Str → List (Str × α)
  | [], _ => []
  | (k0, v0) :: rest, k => if k0 = k then rest else (k0, v0) :: eraseA rest k

/-- Python `s.split(sep)` for a one-character separator: `''.split(c) = ['']`,
and n separators produce n+1 (possibly empty) parts. -/
def splitChar (sep : Char) : Str → List Str
  | [] => [[]]
  | c :: rest =>
    match splitChar sep rest with
    | [] => [[]]
    | part :: parts =>
      if c = sep then [] :: part :: parts else (c :: part) :: parts

/-- Python `sep.join(parts)` for a one-character separator. -/
def joinChar (sep : Char) : List Str → Str
  | [] => []
  | [p] => p
  | p :: rest => p ++ sep :: joinChar sep rest

/-- Python `s.startswith(pre)`. -/
def startsW : Str → Str → Bool
  | [], _ => true
  | _ :: _, [] => false
  | p :: ps, c :: cs => p = c && startsW ps cs

/-- Python `s.startswith(c)` for a single character. -/
def startsWC (c : Char) (s : Str) : Bool :=
  match s with
  | [] => false
  | c0 :: _ => c0 = c

/-- Python `s.endswith(c)` for a single character. -/
def endsWC (c : Char) (s : Str) : Bool :=
  match s.getLast? with
  | none => false
  | some c0 => c0 = c

/-- Python `s.lower()` (ASCII case folding suffices for the apidoc format). -/
def strLower (s : Str) : Str := s.map Char.toLower

/-- Python `int(s)` on a decimal literal with an optional sign; `none` embeds
the `ValueError` raised on any other input. -/
def parseInt (s : Str) : Option Int :=
  let digits (ds : Str) : Option Nat :=
    if ds = [] then none
    else if ds.all Char.isDigit then
      some (ds.foldl (fun acc c => acc * 10 + (c.toNat - 48)) 0)
    else none
  match s with
  | '-' :: rest => (digits rest).map (fun n => -(n : Int))
  | '+' :: rest => (digits rest).map (fun n => (n : Int))
  | _ => (digits s).map (fun n => (n : Int))

/-- Python truthiness-based `self.retcode or group` from
`ApiEndpoint.add_success`: `None` and `0` are falsy and are replaced. -/
def pyOr (r : Option Int) (g : Int) : Int :=
  match r with
  | none => g
  | some v => if v = 0 then g else v

/-- Errors of the embedded code.  Each constructor stands for one concrete
`raise` site (or uncaught Python exception) in habitipy/api.py or
habitipy/async.py. -/
inductive PyErr where
  /-- `assert` failures and malformed `@api` lines in `parse_apidoc`. -/
  | assertionFailed : PyErr
  /-- `apis[-1]` on an empty list: a parameter line before any `@api` line. -/
  | indexError : PyErr
  /-- `ValueError('Two or more retcodes!')` in `ApiEndpoint.add_success`. -/
  | twoRetcodes : PyErr
  /-- tuple unpacking of a `split('=')` with more than two pieces, or
  `int()` on a non-numeric status group, or `s[0]` on an empty string
  inside `Param.__init__`. -/
  | valueError : PyErr
  /-- `AttributeError`: walking through an `ApiEndpoint` as if it were an
  `ApiNode` during `_make_apis_dict`. -/
  | notANode : PyErr
  /-- `ParamAlreadyExist` escaping from a `place` call that is not inside
  the `try` of `_make_apis_dict`. -/
  | paramAlreadyExist : PyErr
deriving DecidableEq, Repr

/-- One parameter of a request or response, as built by `Param.__init__`. -/
structure Param where
  is_optional : Bool
  field : Str
  default : Str
  path : List Str
  type : Option Str
  possible_values : List Str
  description : Str
deriving DecidableEq, Repr

/-- Python `s if s[0] != '"' else s[1:-1]` applied to each comma-separated
possible value; the error is the `IndexError` on an empty piece. -/
def stripQuote : Str → Except PyErr Str
  | [] => .error .valueError
  | c :: cs => if c = '"' then .ok cs.dropLast else .ok (c :: cs)

/-- List version of `map` over `stripQuote` with error propagation. -/
def stripQuotes : List Str → Except PyErr (List Str)
  | [] => .ok []
  | s :: rest =>
    match stripQuote s, stripQuotes rest with
    | .ok s2, .ok rest2 => .ok (s2 :: rest2)
    | .error e, _ => .error e
    | _, .error e => .error e

/-- Embedding of `Param.__init__(type_, field, description)`.  `type_` is
`none` when the regex group did not match (Python `None`); the argument
still carries its surrounding braces/brackets exactly as captured.
Returns `.error` where the Python constructor would raise. -/
def Param.init (type_ : Option Str) (field : Str) (description : Str) :
    Except PyErr Param :=
  match field with
  | [] => .error .valueError
  | f0 :: frest =>
    let f : Str := f0 :: frest
    let is_optional : Bool := f0 = '[' && endsWC ']' f
    let f1 : Str := if is_optional then (f.drop 1).dropLast else f
    let withDefault : Except PyErr (Str × Str) :=
      if ('=' ∈ f1) then
        match splitChar '=' f1 with
        | [a, b] => .ok (a, b)
        | _ => .error .valueError
      else .ok (f1, [])
    match withDefault with
    | .error e => .error e
    | .ok (f2, dflt) =>
      let parts := splitChar '.' f2
      let (pth, leaf) : List Str × Str :=
        if parts.length > 1 then (parts.dropLast, (parts.getLast?).getD [])
        else ([], parts.headD [])
      match type_ with
      | none =>
        .ok { is_optional := is_optional, field := leaf, default := dflt,
              path := pth, type := none, possible_values := [],
              description := description }
      | some t =>
        let t1 : Str := if t.length > 2 then (t.drop 1).dropLast else t
        let withVals : Except PyErr (Str × List Str) :=
          if ('=' ∈ t1) then
            match splitChar '=' t1 with
            | [tn, vs] =>
              match stripQuotes (splitChar ',' vs) with
              | .ok pv => .ok (tn, pv)
              | .error e => .error e
            | _ => .error .valueError
          else .ok (t1, [])
        match withVals with
        | .error e => .error e
        | .ok (tn, pv) =>
          .ok { is_optional := is_optional, field := leaf, default := dflt,
                path := pth, type := some (strLower tn),
                possible_values := pv, description := description }

/-- One documented endpoint, as built by `ApiEndpoint.__init__` and mutated
by `add_param` / `add_success` during parsing. -/
structure ApiEndpoint where
  method : Str
  uri : Str
  parted_uri : List Str
  title : Str
  params : List (Str × List (Str × Param))
  retcode : Option Int
deriving DecidableEq, Repr

/-- `ApiEndpoint(method, uri, title)`: `parted_uri = uri[1:].split('/')`,
no params, no retcode. -/
def ApiEndpoint.mkNew (method uri title : Str) : ApiEndpoint :=
  { method := method, uri := uri, parted_uri := splitChar '/' (uri.drop 1),
    title := title, params := [], retcode := none }

/-- Shared tail of `add_param`/`add_success`: store a param under
`params[group][p.field]` (both levels are insertion-ordered dicts). -/
def ApiEndpoint.storeParam (ep : ApiEndpoint) (group : Str) (p : Param) :
    ApiEndpoint :=
  let groupMap := (lookupA ep.params group).getD []
  { ep with params := updateA ep.params group (updateA groupMap p.field p) }

/-- Embedding of `ApiEndpoint.add_param`: the arguments are the raw regex
captures (`none` = unmatched group, still carrying parens/braces). -/
def ApiEndpoint.add_param (ep : ApiEndpoint) (group : Option Str)
    (type_ : Option Str) (field : Str) (description : Str) :
    Except PyErr ApiEndpoint :=
  let g : Str := match group with
    | none => "(Parameter)".toList
    | some g0 => g0
  let gkey : Str := ((strLower g).drop 1).dropLast
  match Param.init type_ field description with
  | .error e => .error e
  | .ok p => .ok (ep.storeParam gkey p)

/-- The status-group parsing of `add_success`:
`group = group or '(200)'; group = int(group.lower()[1:-1])`. -/
def successGroupStatus (group : Option Str) : Option Int :=
  let g : Str := match group with
    | none => "(200)".toList
    | some g0 => g0
  parseInt (((strLower g).drop 1).dropLast)

/-- The `type_ = type_ or '\x7bString\x7d'` default of `add_success`. -/
def successTypeDefault (type_ : Option Str) : Option Str :=
  match type_ with
  | none => some ("\x7bString\x7d".toList)
  | some t0 => if t0 = [] then some ("\x7bString\x7d".toList) else some t0

/-- Embedding of `ApiEndpoint.add_success`: parses the status group
(default `(200)`), applies the truthiness-based
`self.retcode = self.retcode or group` update, raises on a differing
status, defaults the type to `\x7bString\x7d` and stores the param under
the `responce` group (sic, the key used by the source). -/
def ApiEndpoint.add_success (ep : ApiEndpoint) (group : Option Str)
    (type_ : Option Str) (field : Str) (description : Str) :
    Except PyErr ApiEndpoint :=
  match successGroupStatus group with
  | none => .error .valueError
  | some n =>
    let rc := pyOr ep.retcode n
    if n ≠ rc then .error .twoRetcodes
    else
      match Param.init (successTypeDefault type_) field description with
      | .error e => .error e
      | .ok p => .ok { (ep.storeParam ("responce".toList) p) with
                        retcode := some rc }

/-- Warnings emitted through the `warnings` module, carried as structured
data (the Python source formats them into message strings). -/
inductive Warning where
  /-- `'Wrong api url: {}'.format(uri)` in `parse_apidoc`. -/
  | wrongApiUrl : Str → Warning
  /-- `'Ignoring conflicting param. Dont use {}'.format(api.uri)` in
  `_make_apis_dict`. -/
  | conflictingParam : Str → Warning
  /-- the status-code mismatch warning of `_request` (documented code,
  actual code, endpoint uri). -/
  | wrongReturnCodeWarn : Option Int → Int → Str → Warning
deriving DecidableEq, Repr

/-- Extraction of the regex captures shared by `param_regex` and
`success_regex`:

`(?P<group>\([^)]*\)){0,1} *(?P<type_>{[^}]*}){0,1} *(?P<field>[^ ]*) *(?P<description>.*)$`

applied after the tag and its run of spaces.  The optional captures keep
their surrounding parens/braces (as the Python captures do); a missing
closing delimiter makes the optional group fail and its text flow into
the field capture, exactly as the backtracking regex behaves. -/
def parseTagRest (s : Str) : Option Str × Option Str × Str × Str :=
  let s0 := s.dropWhile (· = ' ')
  let (group, s1) : Option Str × Str :=
    match s0 with
    | '(' :: rest =>
      if ')' ∈ rest then
        (some ('(' :: rest.takeWhile (· ≠ ')') ++ [')']),
         (rest.dropWhile (· ≠ ')')).drop 1)
      else (none, s0)
    | _ => (none, s0)
  let s2 := s1.dropWhile (· = ' ')
  let (type_, s3) : Option Str × Str :=
    match s2 with
    | '\x7b' :: rest =>
      if '\x7d' ∈ rest then
        (some ('\x7b' :: rest.takeWhile (· ≠ '\x7d') ++ ['\x7d']),
         (rest.dropWhile (· ≠ '\x7d')).drop 1)
      else (none, s2)
    | _ => (none, s2)
  let s4 := s3.dropWhile (· = ' ')
  let field := s4.takeWhile (· ≠ ' ')
  let description := (s4.dropWhile (· ≠ ' ')).dropWhile (· = ' ')
  (group, type_, field, description)

/-- The fixed `API_URI_BASE = '/api/v3'`. -/
def API_URI_BASE : Str := "/api/v3".toList

/-- Processing of one `@api {method} /uri Title...` declaration line:
`split(' ')`, `assert len >= 3`, `assert` the braces around the method,
warn on a URL without the API prefix, build a fresh `ApiEndpoint`. -/
def parseDeclLine (line : Str) : Except PyErr (ApiEndpoint × List Warning) :=
  let split_line := splitChar ' ' line
  if split_line.length ≥ 3 then
    let method := split_line.getD 1 []
    let uri := split_line.getD 2 []
    match method with
    | [] => .error .assertionFailed
    | m0 :: mrest =>
      if m0 = '\x7b' && endsWC '\x7d' (m0 :: mrest) then
        let method2 := ((m0 :: mrest).drop 1).dropLast
        let ws : List Warning :=
          if startsW API_URI_BASE uri then [] else [.wrongApiUrl uri]
        let title := joinChar ' ' (split_line.drop 3)
        .ok (ApiEndpoint.mkNew method2 uri title, ws)
      else .error .assertionFailed
  else .error .assertionFailed

/-- `if not apis[-1].retcode: apis[-1].retcode = 200` — the finalization a
descriptor receives when the next `@api` line starts (or at the end of the
parse).  Python truthiness makes both `None` and `0` default to 200. -/
def finalizeRetcode (ep : ApiEndpoint) : ApiEndpoint :=
  match ep.retcode with
  | none => { ep with retcode := some 200 }
  | some v => if v = 0 then { ep with retcode := some 200 } else ep

/-- Tags checked by `parse_apidoc` (note the trailing space: a bare
`@apiParam` line is ignored). -/
def apiTag : Str := "@api ".toList

/-- The `@apiParam ` tag. -/
def apiParamTag : Str := "@apiParam ".toList

/-- The `@apiSuccess ` tag. -/
def apiSuccessTag : Str := "@apiSuccess ".toList

/-- The line loop of `parse_apidoc`.  The Python loop keeps a growing list
`apis` whose last element is still being filled in; that state is embedded
as `fin` (the finalized prefix) plus `cur` (the endpoint of `apis[-1]`),
with the retcode finalization applied when the next declaration starts and
once more at the end. -/
def parseLines (fin : List ApiEndpoint) (cur : Option ApiEndpoint)
    (ws : List Warning) : List Str → Except PyErr (List ApiEndpoint × List Warning)
  | [] =>
    match cur with
    | some ep => .ok (fin ++ [finalizeRetcode ep], ws)
    | none => .ok (fin, ws)
  | line :: rest =>
    if startsW apiTag line then
      match parseDeclLine line with
      | .error e => .error e
      | .ok (ep, ws2) =>
        match cur with
        | some prev => parseLines (fin ++ [finalizeRetcode prev]) (some ep) (ws ++ ws2) rest
        | none => parseLines fin (some ep) (ws ++ ws2) rest
    else if startsW apiParamTag line then
      match cur with
      | none => .error .indexError
      | some ep =>
        match parseTagRest (line.drop 9) with
        | (g, t, f, d) =>
          match ep.add_param g t f d with
          | .error e => .error e
          | .ok ep2 => parseLines fin (some ep2) ws rest
    else if startsW apiSuccessTag line then
      match cur with
      | none => .error .indexError
      | some ep =>
        match parseTagRest (line.drop 11) with
        | (g, t, f, d) =>
          match ep.add_success g t f d with
          | .error e => .error e
          | .ok ep2 => parseLines fin (some ep2) ws rest
    else parseLines fin cur ws rest

/-- Embedding of `parse_apidoc` on the local-file path: split the text into
lines and run the line loop (the `line.replace('\n','')` of the source is
a no-op after `text.split('\n')`). -/
def parse_apidoc (text : Str) : Except PyErr (List ApiEndpoint × List Warning) :=
  parseLines [] none [] (splitChar '\n' text)

/-- The path tree.  `ApiNode` of the source holds `param_name`, `param` and
the dict `paths`; a leaf of `paths` (or the `param` slot) may be either
another node or an `ApiEndpoint`. -/
inductive ApiTree where
  | node : Option Str → Option ApiTree → List (Str × ApiTree) → ApiTree
  | endpoint : ApiEndpoint → ApiTree

/-- Embedding of `ApiNode.into`: a literal child wins, any other name falls
through to the parametric child; `none` embeds the `IndexError`.
Stepping from an `ApiEndpoint` has no `into` attribute and also fails. -/
def ApiTree.into : ApiTree → Str → Option ApiTree
  | .node _ param paths, val =>
    match lookupA paths val with
    | some t => some t
    | none => param
  | .endpoint _, _ => none

/-- Embedding of `ApiNode.can_into`:
`val in self.paths or (self.param and self.param_name == val)`. -/
def ApiTree.can_into : ApiTree → Str → Bool
  | .node param_name param paths, val =>
    (lookupA paths val).isSome ||
      (param.isSome && param_name = some val)
  | .endpoint _, _ => false

/-- Embedding of `ApiNode.place` on a node given by its three fields:
a `:name` part goes into the single parametric slot and raises
`ParamAlreadyExist` when that slot is taken (the comparison
`self.param != part` of the source compares a node with a string and is
always true); any other part is stored in `paths`. -/
def placeA (param_name : Option Str) (param : Option ApiTree)
    (paths : List (Str × ApiTree)) (part : Str) (v : ApiTree) :
    Except PyErr ApiTree :=
  if startsWC ':' part then
    match param with
    | some _ => .error .paramAlreadyExist
    | none => .ok (.node (some part) (some v) paths)
  else .ok (.node param_name param (updateA paths part v))

/-- One iteration block of `_make_apis_dict` for a single endpoint: walk
`api.parted_uri`, using `can_into`/`into` to follow existing children,
`place` to create missing ones (catching `ParamAlreadyExist` by warning
and continuing into the existing parametric child), and finally
`place(api.method, api)` on the reached node.  The in-place mutation of
the source becomes rebuilding the subtree along the walked path. -/
def insertParts : ApiTree → List Str → ApiEndpoint →
    Except PyErr (ApiTree × List Warning)
  | .endpoint _, _, _ => .error .notANode
  | .node param_name param paths, [], api =>
    match placeA param_name param paths api.method (.endpoint api) with
    | .error _ => .error .paramAlreadyExist
    | .ok t => .ok (t, [])
  | .node param_name param paths, part :: rest, api =>
    match lookupA paths part with
    | some child =>
      match insertParts child rest api with
      | .error e => .error e
      | .ok (child2, ws) =>
        .ok (.node param_name param (updateA paths part child2), ws)
    | none =>
      if param.isSome && param_name = some part then
        match param with
        | some child =>
          match insertParts child rest api with
          | .error e => .error e
          | .ok (child2, ws) =>
            .ok (.node param_name (some child2) paths, ws)
        | none => .error .notANode
      else
        if startsWC ':' part then
          match param with
          | some child =>
            match insertParts child rest api with
            | .error e => .error e
            | .ok (child2, ws) =>
              .ok (.node param_name (some child2) paths,
                   .conflictingParam api.uri :: ws)
          | none =>
            match insertParts (.node none none []) rest api with
            | .error e => .error e
            | .ok (child2, ws) =>
              .ok (.node (some part) (some child2) paths, ws)
        else
          match insertParts (.node none none []) rest api with
          | .error e => .error e
          | .ok (child2, ws) =>
            .ok (.node param_name param (updateA paths part child2), ws)

/-- The loop of `_make_apis_dict` over the endpoint list. -/
def insertAll : ApiTree → List ApiEndpoint →
    Except PyErr (ApiTree × List Warning)
  | t, [] => .ok (t, [])
  | t, api :: rest =>
    match insertParts t api.parted_uri api with
    | .error e => .error e
    | .ok (t1, ws1) =>
      match insertAll t1 rest with
      | .error e => .error e
      | .ok (t2, ws2) => .ok (t2, ws1 ++ ws2)

/-- Embedding of `Habitipy._make_apis_dict`: fold all endpoints into an
initially empty root node. -/
def make_apis_dict (apis : List ApiEndpoint) :
    Except PyErr (ApiTree × List Warning) :=
  insertAll (.node none none []) apis

/-- Navigation as performed by the `Habitipy` constructor: repeated
`into` steps. -/
def walk : ApiTree → List Str → Option ApiTree
  | t, [] => some t
  | t, p :: ps =>
    match t.into p with
    | some t2 => walk t2 ps
    | none => none

/-- Walk a full `parted_uri` and then look up the method key in the reached
node's `paths` dict (where `place(api.method, api)` stores endpoints). -/
def lookupApi (root : ApiTree) (parts : List Str) (method : Str) :
    Option ApiTree :=
  match walk root parts with
  | some (.node _ _ paths) => lookupA paths method
  | _ => none

/-- The strict step: a literal child, or the parametric child under exactly
its registered name — the step taken when `can_into` holds, which is how
`_make_apis_dict` itself descends. -/
def strictInto : ApiTree → Str → Option ApiTree
  | .node param_name param paths, val =>
    match lookupA paths val with
    | some t => some t
    | none => if param.isSome && param_name = some val then param else none
  | .endpoint _, _ => none

/-- Walk with `strictInto`. -/
def walkStrict : ApiTree → List Str → Option ApiTree
  | t, [] => some t
  | t, p :: ps =>
    match strictInto t p with
    | some t2 => walkStrict t2 ps
    | none => none

/-- `lookupApi` along the strict walk. -/
def lookupApiStrict (root : ApiTree) (parts : List Str) (method : Str) :
    Option ApiTree :=
  match walkStrict root parts with
  | some (.node _ _ paths) => lookupA paths method
  | _ => none

/-- Embedding of `ApiNode.keys`: the parametric name (when the slot is
taken) followed by all literal keys. -/
def ApiTree.keysList : ApiTree → List Str
  | .node param_name param paths =>
    (match param_name, param with
     | some pn, some _ => [pn]
     | _, _ => []) ++ paths.map Prod.fst
  | .endpoint _ => []

/-- Minimal JSON values, enough for the decoded response bodies. -/
inductive Json where
  | null : Json
  | bool : Bool → Json
  | num : Int → Json
  | str : Str → Json
  | arr : List Json → Json
  | obj : List (Str × Json) → Json

/-- Python `obj['data']` on a decoded JSON body: a `KeyError` (missing key)
or `TypeError` (not an object) is a malformed-response failure. -/
def jsonGet (j : Json) (k : Str) : Option Json :=
  match j with
  | .obj kvs => lookupA kvs k
  | _ => none

/-- Request-dispatch errors (`Habitipy._prepare_request` / `_request` and
the identical logic of `HabitipyAsync.__call__`). -/
inductive ReqError where
  /-- `ValueError('{} is not an endpoint!')`. -/
  | notAnEndpoint : Str → ReqError
  /-- `TypeError('Mandatory param {} is missing')`. -/
  | missingParameter : Str → ReqError
  /-- `res.raise_for_status()` raising `HTTPError` for a 4xx/5xx status. -/
  | httpError : Int → ReqError
  /-- `WrongReturnCode` carrying the documented code, the actual code and
  the endpoint uri (the source formats them into the message). -/
  | wrongReturnCode : Option Int → Int → Str → ReqError
  /-- `res.json()['data']` failing: body without a `data` envelope. -/
  | malformedResponse : ReqError
deriving DecidableEq, Repr

/-- Configuration mapping (`conf['url']`, `conf['login']`, `conf['password']`). -/
structure Conf where
  url : Str
  login : Str
  password : Str
deriving DecidableEq, Repr

/-- `API_CONTENT_TYPE = 'application/json'`. -/
def API_CONTENT_TYPE : Str := "application/json".toList

/-- Embedding of `Habitipy._make_headers`. -/
def make_headers (conf : Conf) : List (Str × Str) :=
  [("x-api-user".toList, conf.login), ("x-api-key".toList, conf.password),
   ("content-type".toList, API_CONTENT_TYPE)]

/-- The request computed by `_prepare_request`: method, url, headers, query
dict, and the body (`json.dumps(kwargs)` is embedded as the kwargs map
itself; the serialization is opaque to every claim). -/
structure PreparedRequest where
  method : Str
  uri : Str
  headers : List (Str × Str)
  query : List (Str × Json)
  data : Option (List (Str × Json))

/-- The query-partition loop of `_prepare_request` (and, identically, of
`HabitipyAsync.__call__`): for each declared query param in order, pop a
same-named kwarg into the query dict, or fail on a missing mandatory
one.  Returns the query dict and the remaining kwargs. -/
def popQueryParams : List (Str × Param) → List (Str × Json) →
    Except ReqError (List (Str × Json) × List (Str × Json))
  | [], kwargs => .ok ([], kwargs)
  | (name, p) :: rest, kwargs =>
    match lookupA kwargs name with
    | some v =>
      match popQueryParams rest (eraseA kwargs name) with
      | .error e => .error e
      | .ok (q, kw) => .ok ((name, v) :: q, kw)
    | none =>
      if !p.is_optional then .error (.missingParameter name)
      else popQueryParams rest kwargs

/-- The group key `'query'`. -/
def queryKey : Str := "query".toList

/-- The methods that carry a serialized body. -/
def mutatingMethods : List Str :=
  ["put".toList, "post".toList, "delete".toList]

/-- Embedding of `Habitipy._prepare_request` for a cursor at `node` with
path `current`: checks the node is an endpoint, partitions the kwargs and
builds the request. -/
def prepare_request (conf : Conf) (current : List Str) (node : ApiTree)
    (kwargs : List (Str × Json)) : Except ReqError PreparedRequest :=
  let uri := joinChar '/' (conf.url :: current.dropLast)
  match node with
  | .node _ _ _ => .error (.notAnEndpoint uri)
  | .endpoint ep =>
    let popped : Except ReqError (List (Str × Json) × List (Str × Json)) :=
      match lookupA ep.params queryKey with
      | some qps => popQueryParams qps kwargs
      | none => .ok ([], kwargs)
    match popped with
    | .error e => .error e
    | .ok (query, rest) =>
      .ok { method := ep.method, uri := uri, headers := make_headers conf,
            query := query,
            data := if ep.method ∈ mutatingMethods then some rest else none }

/-- One transport response: status code plus decoded JSON body. -/
structure HttpResponse where
  status : Int
  body : Json

/-- `res.raise_for_status()`: 4xx and 5xx statuses raise `HTTPError`. -/
def raise_for_status (status : Int) : Option ReqError :=
  if 400 ≤ status ∧ status < 600 then some (.httpError status) else none

/-- Embedding of `Habitipy._request` after the transport returned `res`
(and of the identical tail of `HabitipyAsync.__call__`): compare the
status with the documented retcode; on mismatch first `raise_for_status`,
then either raise `WrongReturnCode` (strict) or warn (non-strict); finally
return `res.json()['data']`. -/
def request (strict : Bool) (ep : ApiEndpoint) (res : HttpResponse) :
    Except ReqError Json × List Warning :=
  if ep.retcode ≠ some res.status then
    match raise_for_status res.status with
    | some e => (.error e, [])
    | none =>
      if strict then
        (.error (.wrongReturnCode ep.retcode res.status ep.uri), [])
      else
        match jsonGet res.body ("data".toList) with
        | some d => (.ok d, [.wrongReturnCodeWarn ep.retcode res.status ep.uri])
        | none => (.error .malformedResponse,
                   [.wrongReturnCodeWarn ep.retcode res.status ep.uri])
  else
    match jsonGet res.body ("data".toList) with
    | some d => (.ok d, [])
    | none => (.error .malformedResponse, [])

/-- Embedding of `Habitipy.__call__` (Invoke): prepare the request, run the
injected transport, post-process.  The final `Nat` counts transport
invocations, so a claim about "zero network calls" is a claim about this
count. -/
def invoke (conf : Conf) (current : List Str) (node : ApiTree)
    (strict : Bool) (transport : PreparedRequest → HttpResponse)
    (kwargs : List (Str × Json)) :
    Except ReqError Json × List Warning × Nat :=
  match prepare_request conf current node kwargs with
  | .error e => (.error e, [], 0)
  | .ok pr =>
    match node with
    | .endpoint ep =>
      let res := transport pr
      let (r, ws) := request strict ep res
      (r, ws, 1)
    | .node _ _ _ => (.error (.notAnEndpoint pr.uri), [], 0)

/-- The Python keyword list (`keyword.kwlist`) used by `escape_keywords`. -/
def kwlist : List Str :=
  ["False".toList, "None".toList, "True".toList, "and".toList, "as".toList,
   "assert".toList, "async".toList, "await".toList, "break".toList,
   "class".toList, "continue".toList, "def".toList, "del".toList,
   "elif".toList, "else".toList, "except".toList, "finally".toList,
   "for".toList, "from".toList, "global".toList, "if".toList,
   "import".toList, "in".toList, "is".toList, "lambda".toList,
   "nonlocal".toList, "not".toList, "or".toList, "pass".toList,
   "raise".toList,
   "return".toList, "try".toList, "while".toList, "with".toList,
   "yield".toList]

/-- The per-name body of `escape_keywords`: append `_` to keywords, then
turn hyphens into underscores. -/
def escape1 (i : Str) : Str :=
  let i1 := if i ∈ kwlist then i ++ ['_'] else i
  if '-' ∈ i1 then i1.map (fun c => if c = '-' then '_' else c) else i1

/-- Python `val.rstrip('_')`. -/
def rstripUnderscore (s : Str) : Str :=
  ((s.reverse.dropWhile (· = '_')).reverse)

/-- The name normalization of `Habitipy.__getattr__`: strip trailing
underscores (reserved-word escape), then turn underscores back into
hyphens. -/
def normalizeAttr (val : Str) : Str :=
  let v1 := if endsWC '_' val then rstripUnderscore val else val
  if '_' ∈ v1 then v1.map (fun c => if c = '_' then '-' else c) else v1


/-- A sample endpoint documented with status 200 at `/api/v3/user`
(used to exercise the status-mismatch logic on concrete responses). -/
def epC1 : ApiEndpoint :=
  { ApiEndpoint.mkNew ("get".toList) ("/api/v3/user".toList) [] with
      retcode := some 200 }

/-- A concrete 404 response carrying a well-formed data envelope. -/
def resC1 : HttpResponse :=
  { status := 404, body := Json.obj [(("data".toList), Json.null)] }

/-- A sample endpoint for concrete tree nodes. -/
def epX : ApiEndpoint := ApiEndpoint.mkNew ("get".toList) ("/x".toList) []

/-- A node whose only child is the parametric slot `:id`. -/
def nodeC3 : ApiTree :=
  ApiTree.node (some (":id".toList)) (some (.endpoint epX)) []

/-- A node with one literal child whose name contains an underscore. -/
def nodeC9 : ApiTree :=
  ApiTree.node none none [(("a_b".toList), .endpoint epX)]

/-- First endpoint of the parametric-conflict pair (`:x` registered first). -/
def epA2 : ApiEndpoint := ApiEndpoint.mkNew ("get".toList) ("/a/:x/t1".toList) []

/-- Second endpoint of the parametric-conflict pair (conflicting `:y`). -/
def epB2 : ApiEndpoint := ApiEndpoint.mkNew ("get".toList) ("/a/:y/t2".toList) []

/-- The tree built from the conflicting pair (total extraction of the
`.ok` component; the build does succeed, as the counterexample shows). -/
def rootC2 : ApiTree :=
  match make_apis_dict [epA2, epB2] with
  | .ok (t, _) => t
  | .error _ => .node none none []

/-- A small fixed configuration for concrete dispatch examples. -/
def confW : Conf :=
  { url := "u".toList, login := "l".toList, password := "p".toList }

/-- A post endpoint declaring one mandatory parameter in the body group. -/
def epW10 : ApiEndpoint :=
  { ApiEndpoint.mkNew ("post".toList) ("/api/v3/x".toList) [] with
      params := [(("body".toList),
        [(("b".toList),
          { is_optional := false, field := "b".toList, default := [],
            path := [], type := none, possible_values := [],
            description := [] })])] }

/-- The full trie path of a descriptor: its uri segments followed by its
method key (the build walks the segments and then places the method). -/
def fullPath (api : ApiEndpoint) : List Str := api.parted_uri ++ [api.method]

/-- Boolean list-prefix test (used both on segment lists and on raw
character lists). -/
def isPre {α : Type} [DecidableEq α] : List α → List α → Bool
  | [], _ => true
  | _ :: _, [] => false
  | a :: as, b :: bs => a = b && isPre as bs

/-- Two full paths interfere when one is a prefix of the other (equality
included): the later insertion then either overwrites or collides with
the earlier one. -/
def nonInterfering (a b : List Str) : Bool := !(isPre a b) && !(isPre b a)

/-- Pairwise non-interference of all full paths of a descriptor list. -/
def pairwiseNonInterfering : List ApiEndpoint → Bool
  | [] => true
  | a :: rest =>
    rest.all (fun b => nonInterfering (fullPath a) (fullPath b)) &&
      pairwiseNonInterfering rest

/-- A conflict-free descriptor list: no method masquerades as a parametric
segment and no two full paths interfere.  (The further conflict-freedom
conditions — the build succeeding and emitting no parametric-conflict
warning — appear as separate hypotheses on the build result.) -/
def conflictFreeB (apis : List ApiEndpoint) : Bool :=
  apis.all (fun a => !(startsWC ':' a.method)) && pairwiseNonInterfering apis

/-- A concrete two-endpoint document for the round-trip. -/
def docW6 : Str :=
  ("@api \x7bget\x7d /api/v3/user Get\n@api \x7bpost\x7d /api/v3/user/tasks T").toList

/-- The descriptors parsed from `docW6`. -/
def epsW6 : List ApiEndpoint :=
  match parse_apidoc docW6 with
  | .ok (eps, _) => eps
  | .error _ => []

/-- The tree built from `epsW6`. -/
def rootW6 : ApiTree :=
  match make_apis_dict epsW6 with
  | .ok (t, _) => t
  | .error _ => .node none none []

/-- The first descriptor of `epsW6`. -/
def epW6a : ApiEndpoint :=
  match epsW6 with
  | a :: _ => a
  | [] => ApiEndpoint.mkNew [] [] []

/-- Helper for the block recursions: `dropWhile` never lengthens a list. -/
theorem length_dropWhile_le' {α : Type} (p : α → Bool) (l : List α) :
    (l.dropWhile p).length ≤ l.length := by
  induction l with
  | nil => simp
  | cons a rest ih =>
    rw [List.dropWhile_cons]
    split
    · exact Nat.le_succ_of_le ih
    · exact Nat.le_refl _

/-- A line starting a new endpoint declaration. -/
def isDeclLine (l : Str) : Bool := startsW apiTag l

/-- The status an `@apiSuccess` line declares (default 200 when the group
is absent), mirroring the group parsing of `add_success`; `none` when the
group does not parse as an integer. -/
def declaredStatus (l : Str) : Option Int :=
  match parseTagRest (l.drop 11) with
  | (g, _, _, _) => successGroupStatus g

/-- The retcode bookkeeping `parse_apidoc` performs on the response lines
of a document, as a pure check: scanning the lines with the running
`self.retcode = self.retcode or group` value, `false` the moment a
response line declares a status on which `add_success` would raise. -/
def statusesOkFrom (r : Option Int) : List Str → Bool
  | [] => true
  | l :: rest =>
    if isDeclLine l then statusesOkFrom none rest
    else if startsW apiSuccessTag l then
      match declaredStatus l with
      | some g => (g = pyOr r g : Bool) && statusesOkFrom (some (pyOr r g)) rest
      | none => statusesOkFrom r rest
    else statusesOkFrom r rest

/-- The retcode of the endpoint currently being filled in (the parser
state `apis[-1].retcode`), `none` before the first declaration. -/
def curRetcode : Option ApiEndpoint → Option Int
  | some ep => ep.retcode
  | none => none

/-- The spec's own two-line conflict test: `(200)` then `(201)`. -/
def docC5conflict : Str :=
  ("@api \x7bget\x7d /api/v3/user t\n@apiSuccess (200) \x7bString\x7d data d\n@apiSuccess (201) \x7bString\x7d data d").toList

/-- A document whose endpoint declares the two different statuses 0 and
200 on two response lines. -/
def docC5zero : Str :=
  ("@api \x7bget\x7d /api/v3/user t\n@apiSuccess (0) \x7bString\x7d data d\n@apiSuccess (200) \x7bString\x7d data d").toList

/-- The single descriptor `docC5zero` parses to. -/
def epC5 : ApiEndpoint :=
  match parse_apidoc docC5zero with
  | .ok (a :: _, _) => a
  | _ => ApiEndpoint.mkNew [] [] []

/-- The declaration lines of a document. -/
def declLinesOf (lines : List Str) : List Str :=
  lines.filter (fun l => isDeclLine l)

/-- The (method, uri, title) triple a declaration line parses to. -/
def declTriple (l : Str) : Str × Str × Str :=
  match parseDeclLine l with
  | .ok (ep, _) => (ep.method, ep.uri, ep.title)
  | .error _ => ([], [], [])

/-- The statuses declared by the response lines of one block segment. -/
def segStatuses (seg : List Str) : List Int :=
  seg.filterMap (fun l =>
    if startsW apiSuccessTag l then declaredStatus l else none)

/-- The expected status a block's response lines give: the first declared
status, or 200 when the block has no response line. -/
def expectedStatusOfSeg (seg : List Str) : Int :=
  match segStatuses seg with
  | [] => 200
  | s :: _ => s

/-- All declared statuses of a block agree on one nonzero value. -/
def statusesConsistent : List Int → Bool
  | [] => true
  | s :: rest => (s ≠ 0 : Bool) && rest.all (fun x => x = s)

/-- The per-status success condition of the `add_success` chain starting
from the running retcode `r`. -/
def segOk (r : Option Int) : List Int → Bool
  | [] => true
  | s :: rest => (s = pyOr r s : Bool) && segOk (some (pyOr r s)) rest

/-- An `@apiParam` line on which `add_param` cannot raise. -/
def wfParamLine (l : Str) : Bool :=
  match parseTagRest (l.drop 9) with
  | (_, t, f, d) => (Param.init t f d).isOk

/-- An `@apiSuccess` line on which `add_success` can only raise through the
retcode-conflict check. -/
def wfSuccessLine (l : Str) : Bool :=
  match parseTagRest (l.drop 11) with
  | (g, t, f, d) =>
    (successGroupStatus g).isSome &&
      (Param.init (successTypeDefault t) f d).isOk

/-- Line-local well-formedness inside a block segment. -/
def wfSegLine (l : Str) : Bool :=
  if startsW apiParamTag l then wfParamLine l
  else if startsW apiSuccessTag l then wfSuccessLine l
  else true

/-- A well-formed block segment: all lines are line-local well-formed and
the declared statuses agree on one nonzero value. -/
def wfSeg (seg : List Str) : Bool :=
  seg.all (fun l => wfSegLine l) && statusesConsistent (segStatuses seg)

/-- The blocks of a document: each declaration line with the run of
following non-declaration lines. -/
def blockSegs : List Str → List (Str × List Str)
  | [] => []
  | l :: rest =>
    if isDeclLine l then
      (l, rest.takeWhile (fun x => !isDeclLine x)) ::
        blockSegs (rest.dropWhile (fun x => !isDeclLine x))
    else blockSegs rest
termination_by lines => lines.length
decreasing_by
  all_goals simp_wf
  all_goals
    first
    | exact Nat.lt_succ_of_le (length_dropWhile_le' _ _)
    | exact Nat.lt_succ_of_le (Nat.le_refl _)

/-- The per-block processing of the parser, totalized: fold the parameter
and response lines of a segment into the endpoint (the error branches are
unreachable on well-formed segments, which the lemmas assume). -/
def foldSeg (ep : ApiEndpoint) : List Str → ApiEndpoint
  | [] => ep
  | l :: rest =>
    if startsW apiParamTag l then
      match parseTagRest (l.drop 9) with
      | (g, t, f, d) =>
        match ep.add_param g t f d with
        | .ok ep2 => foldSeg ep2 rest
        | .error _ => foldSeg ep rest
    else if startsW apiSuccessTag l then
      match parseTagRest (l.drop 11) with
      | (g, t, f, d) =>
        match ep.add_success g t f d with
        | .ok ep2 => foldSeg ep2 rest
        | .error _ => foldSeg ep rest
    else foldSeg ep rest

/-- The descriptor list a well-formed document's blocks produce. -/
def blockEndpoints : List Str → List ApiEndpoint
  | [] => []
  | l :: rest =>
    if isDeclLine l then
      (match parseDeclLine l with
       | .ok (ep, _) =>
         finalizeRetcode (foldSeg ep (rest.takeWhile (fun x => !isDeclLine x)))
       | .error _ => ApiEndpoint.mkNew [] [] []) ::
        blockEndpoints (rest.dropWhile (fun x => !isDeclLine x))
    else blockEndpoints rest
termination_by lines => lines.length
decreasing_by
  all_goals simp_wf
  all_goals
    first
    | exact Nat.lt_succ_of_le (length_dropWhile_le' _ _)
    | exact Nat.lt_succ_of_le (Nat.le_refl _)

/-- Well-formedness of the block part of a document. -/
def wfBlocks : List Str → Bool
  | [] => true
  | l :: rest =>
    isDeclLine l && (parseDeclLine l).isOk &&
      wfSeg (rest.takeWhile (fun x => !isDeclLine x)) &&
      wfBlocks (rest.dropWhile (fun x => !isDeclLine x))
termination_by lines => lines.length
decreasing_by
  all_goals simp_wf
  all_goals
    first
    | exact Nat.lt_succ_of_le (length_dropWhile_le' _ _)
    | exact Nat.lt_succ_of_le (Nat.le_refl _)

/-- A well-formed document: nothing before the first declaration line
claims to be a parameter or response line, and all blocks are
well-formed. -/
def wellFormedDoc (lines : List Str) : Bool :=
  (lines.takeWhile (fun l => !isDeclLine l)).all
    (fun l => !(startsW apiParamTag l) && !(startsW apiSuccessTag l)) &&
    wfBlocks (lines.dropWhile (fun l => !isDeclLine l))

/-- A concrete well-formed two-line document for the parser contract. -/
def docW7 : Str :=
  ("@api \x7bget\x7d /api/v3/user t\n@apiSuccess (201) \x7bObject\x7d data d").toList

/-- Helper: `Param.init` sets `is_optional` exactly to the bracket test
`field[0] == '[' and field[-1] == ']'` of the source. -/
theorem param_init_is_optional (type_ : Option Str) (field descr : Str)
    (p : Param) (h : Param.init type_ field descr = .ok p) :
    p.is_optional = (startsWC '[' field && endsWC ']' field) := by
  cases field with
  | nil => simp [Param.init] at h
  | cons f0 frest =>
    simp only [Param.init] at h
    simp only [startsWC]
    repeat' split at h
    all_goals (try (injection h with h2))
    all_goals (first | rfl | (cases h2 <;> rfl) | (cases h <;> rfl))

/-- Helper: `endsWC` is the "ends with this character" decomposition. -/
theorem endsWC_iff (c : Char) (f : Str) :
    endsWC c f = true ↔ ∃ s : Str, f = s ++ [c] := by
  rcases f.eq_nil_or_concat with rfl | ⟨l, a, rfl⟩
  · constructor
    · intro h
      simp [endsWC, List.getLast?] at h
    · rintro ⟨s, hs⟩
      exact absurd hs (by simp)
  · have hl : (l.concat a).getLast? = some a := by simp
    constructor
    · intro h
      simp only [endsWC, hl, decide_eq_true_eq] at h
      subst h
      exact ⟨l, by simp⟩
    · rintro ⟨s, hs⟩
      have h2 := congrArg List.getLast? hs
      rw [hl, List.getLast?_concat s] at h2
      simp only [endsWC, hl]
      simp [Option.some_inj.mp h2]

/-- Helper: the boolean bracket test of the source is equivalent to the
spec-side "surrounded by square brackets" decomposition. -/
theorem bracket_test_iff (field : Str) :
    (startsWC '[' field && endsWC ']' field) = true ↔
      ∃ s : Str, field = '[' :: (s ++ [']']) := by
  constructor
  · intro h
    rw [Bool.and_eq_true] at h
    obtain ⟨h0, h1⟩ := h
    rcases field with _ | ⟨f0, frest⟩
    · simp [startsWC] at h0
    · simp only [startsWC, decide_eq_true_eq] at h0
      subst h0
      obtain ⟨s, hs⟩ := (endsWC_iff ']' _).mp h1
      rcases s with _ | ⟨s0, srest⟩
      · simp at hs
      · rw [List.cons_append] at hs
        injection hs with hs0 hs1
        subst hs0
        exact ⟨srest, by rw [hs1]⟩
  · rintro ⟨s, rfl⟩
    rw [Bool.and_eq_true]
    refine ⟨rfl, ?_⟩
    rw [endsWC_iff]
    exact ⟨'[' :: s, by simp⟩

/-- C8: for every parameter accepted by `Param.__init__`, `is_optional` is
true if and only if the field token was surrounded by square brackets;
and the field `[name=default]` with type `{String}` parses to
`is_optional = true`, `default = "default"`, `type = "string"` with the
brackets stripped, the `=` splitting off the default, the braces stripped
and the type lower-cased. -/
theorem c8_param_optional_iff_brackets :
    (∀ (type_ : Option Str) (field descr : Str) (p : Param),
        Param.init type_ field descr = .ok p →
        (p.is_optional = true ↔ ∃ s : Str, field = '[' :: (s ++ [']']))) ∧
    Param.init (some ("\x7bString\x7d".toList)) ("[name=default]".toList) [] =
      .ok { is_optional := true, field := "name".toList,
            default := "default".toList, path := [],
            type := some ("string".toList), possible_values := [],
            description := [] } := by
  constructor
  · intro type_ field descr p h
    rw [param_init_is_optional type_ field descr p h]
    exact bracket_test_iff field
  · rfl

/-- Witness for C8 at the concrete field `[x]`. -/
theorem c8_param_optional_iff_brackets_witness :
    Param.init none ("[x]".toList) [] =
      .ok { is_optional := true, field := "x".toList, default := [],
            path := [], type := none, possible_values := [],
            description := [] } ∧
    (({ is_optional := true, field := "x".toList, default := [],
        path := [], type := none, possible_values := [],
        description := [] } : Param).is_optional = true ↔
      ∃ s : Str, ("[x]".toList : Str) = '[' :: (s ++ [']'])) :=
  ⟨rfl, c8_param_optional_iff_brackets.1 none ("[x]".toList) [] _ rfl⟩

/-- C3 (amended): a `Step` via `into` fails exactly when the name is not a
literal child and the node has no parametric child at all (a parametric
slot accepts any name); `can_into` implies `into` succeeds, but not
conversely. -/
theorem c3_step_canstep_amended :
    (∀ (pn : Option Str) (pm : Option ApiTree)
        (paths : List (Str × ApiTree)) (val : Str),
        (ApiTree.into (.node pn pm paths) val = none ↔
          lookupA paths val = none ∧ pm = none)) ∧
    (∀ (t : ApiTree) (val : Str),
        t.can_into val = true → (t.into val).isSome = true) := by
  constructor
  · intro pn pm paths val
    simp only [ApiTree.into]
    cases h : lookupA paths val <;> cases pm <;> simp
  · intro t val h
    cases t with
    | endpoint ep => simp [ApiTree.can_into] at h
    | node pn pm paths =>
      simp only [ApiTree.can_into, Bool.or_eq_true, Bool.and_eq_true] at h
      simp only [ApiTree.into]
      cases hl : lookupA paths val with
      | some t2 => simp
      | none =>
        rcases h with h | ⟨h1, _⟩
        · rw [hl] at h
          simp at h
        · simpa using h1

/-- Witness for C3 at a concrete node with a literal child. -/
theorem c3_step_canstep_amended_witness :
    ApiTree.can_into nodeC9 ("a_b".toList) = true ∧
    (ApiTree.into nodeC9 ("a_b".toList)).isSome = true :=
  ⟨by decide, c3_step_canstep_amended.2 nodeC9 ("a_b".toList) (by decide)⟩

/-- C3 counterexample: at a node holding only the parametric slot `:id`,
stepping with the unrelated name `abc` succeeds (it falls through to the
parametric child) while `can_into` is false — so `CanStep(name)` is not
equivalent to "`Step(name)` would succeed", and `Step` does not fail even
though `abc` matches neither a literal child nor the parametric name. -/
theorem c3_counterexample :
    ApiTree.can_into nodeC3 ("abc".toList) = false ∧
    ApiTree.into nodeC3 ("abc".toList) = some (.endpoint epX) :=
  ⟨rfl, rfl⟩


theorem dropWhile_of_forall_not {α : Type} (p : α → Bool) (l : List α)
    (h : ∀ x ∈ l, p x = false) : l.dropWhile p = l := by
  induction l with
  | nil => rfl
  | cons a rest _ =>
    rw [List.dropWhile_cons, h a (by simp)]
    simp

theorem kwlist_no_special : ∀ k ∈ kwlist, '-' ∉ k ∧ '_' ∉ k := by decide

theorem endsWC_eq_false_of_not_mem (c : Char) (k : Str) (h : c ∉ k) :
    endsWC c k = false := by
  simp only [endsWC]
  cases hgl : k.getLast? with
  | none => rfl
  | some c0 =>
    have : c0 ∈ k := List.mem_of_mem_getLast? (by rw [hgl]; rfl)
    simp only [decide_eq_false_iff_not]
    rintro rfl
    exact h this

theorem normalize_escape_id (k : Str) (hu : '_' ∉ k)
    (hh : k.getLast? ≠ some '-') : normalizeAttr (escape1 k) = k := by
  by_cases hkw : k ∈ kwlist
  · obtain ⟨hd, _⟩ := kwlist_no_special k hkw
    have hesc : escape1 k = k ++ ['_'] := by
      simp only [escape1, if_pos hkw]
      rw [if_neg]
      intro hmem
      rcases List.mem_append.mp hmem with h | h
      · exact hd h
      · simp at h
    rw [hesc]
    have hend : endsWC '_' (k ++ ['_']) = true := by
      rw [endsWC_iff]
      exact ⟨k, rfl⟩
    have hstrip : rstripUnderscore (k ++ ['_']) = k := by
      simp only [rstripUnderscore, List.reverse_append, List.reverse_cons,
        List.reverse_nil, List.nil_append, List.singleton_append,
        List.dropWhile_cons]
      simp only [decide_eq_true_eq, if_pos rfl]
      rw [dropWhile_of_forall_not]
      · simp
      · intro x hx
        simp only [decide_eq_false_iff_not]
        rintro rfl
        exact hu (List.mem_reverse.mp hx)
    simp only [normalizeAttr, hend, if_true, hstrip]
    simp [hu]
  · have hesc0 : (if k ∈ kwlist then k ++ ['_'] else k) = k := if_neg hkw
    by_cases hhy : '-' ∈ k
    · have hesc : escape1 k = k.map (fun c => if c = '-' then '_' else c) := by
        simp only [escape1, hesc0, if_pos hhy]
      rw [hesc]
      have hend : endsWC '_' (k.map (fun c => if c = '-' then '_' else c)) = false := by
        simp only [endsWC, List.getLast?_map]
        cases hgl : k.getLast? with
        | none => rfl
        | some c0 =>
          have hc0 : c0 ∈ k := List.mem_of_mem_getLast? (by rw [hgl]; rfl)
          have hc0h : c0 ≠ '-' := by rintro rfl; exact hh hgl
          have hc0u : c0 ≠ '_' := by rintro rfl; exact hu hc0
          simp [if_neg hc0h, hc0u]
      have hmem : '_' ∈ k.map (fun c => if c = '-' then '_' else c) :=
        List.mem_map.mpr ⟨'-', hhy, by simp⟩
      simp only [normalizeAttr, hend, Bool.false_eq_true, if_false, hmem, if_true]
      rw [List.map_map]
      have : ∀ c ∈ k, ((fun c => if c = '_' then '-' else c) ∘
          (fun c => if c = '-' then '_' else c)) c = c := by
        intro c hc
        by_cases hcd : c = '-'
        · simp [hcd]
        · have hcu : c ≠ '_' := by rintro rfl; exact hu hc
          simp [hcd, hcu]
      rw [List.map_congr_left this]
      simp
    · have hesc : escape1 k = k := by
        simp only [escape1, hesc0, if_neg hhy]
      rw [hesc]
      have hend : endsWC '_' k = false := endsWC_eq_false_of_not_mem '_' k hu
      simp only [normalizeAttr, hend, Bool.false_eq_true, if_false]
      simp [hu]

/-- C9 (amended): stepping with a key of the node, re-deriving the name the
way `__dir__` exposes it (`escape_keywords`) and stepping again through the
`__getattr__` normalization reaches the same child — for keys that contain
no underscore and do not end with a hyphen.  (A genuine underscore in a
path segment breaks the round-trip, see the counterexample.) -/
theorem c9_normalize_roundtrip (t : ApiTree) (k : Str)
    (hk : k ∈ t.keysList) (hu : '_' ∉ k) (hh : k.getLast? ≠ some '-') :
    t.into (normalizeAttr (escape1 k)) = t.into k := by
  rw [normalize_escape_id k hu hh]

/-- Witness for C9 at the keyword-escaped key `class` and at the
hyphenated key `reorder-tags`. -/
theorem c9_normalize_roundtrip_witness :
    (("class".toList : Str) ∈ ApiTree.keysList
        (.node none none [(("class".toList), .endpoint epX)])) ∧
    ApiTree.into (.node none none [(("class".toList), .endpoint epX)])
        (normalizeAttr (escape1 ("class".toList))) =
      ApiTree.into (.node none none [(("class".toList), .endpoint epX)])
        ("class".toList) :=
  ⟨by decide, c9_normalize_roundtrip _ ("class".toList) (by decide)
      (by decide) (by decide)⟩

/-- C9 counterexample: the key `a_b` of a node survives `ListKeys`
unchanged (`escape_keywords` leaves it alone), but the `__getattr__`
normalization turns it into `a-b`, so the second step fails instead of
reaching the same node: the claimed round-trip is false for names with a
genuine underscore. -/
theorem c9_counterexample :
    (("a_b".toList : Str) ∈ ApiTree.keysList nodeC9) ∧
    escape1 ("a_b".toList) = "a_b".toList ∧
    normalizeAttr ("a_b".toList) = "a-b".toList ∧
    ApiTree.into nodeC9 ("a_b".toList) = some (.endpoint epX) ∧
    ApiTree.into nodeC9 (normalizeAttr (escape1 ("a_b".toList))) = none := by
  refine ⟨by decide, by decide, by decide, rfl, rfl⟩

/-- C1 (amended): on a status-code mismatch the dispatcher first calls
`raise_for_status`, so an HTTP-error status (400–599) raises the
transport's `HTTPError` in both modes; only a mismatched non-error status
reaches the strict/lenient switch: strict raises `WrongReturnCode`
carrying the documented code, the actual code and the endpoint URL, and
non-strict emits the diagnostic and still returns the decoded `data`
envelope. -/
theorem c1_status_mismatch_amended (strict : Bool) (ep : ApiEndpoint)
    (res : HttpResponse) (hm : ep.retcode ≠ some res.status) :
    (400 ≤ res.status ∧ res.status < 600 →
      request strict ep res = (.error (.httpError res.status), [])) ∧
    (¬(400 ≤ res.status ∧ res.status < 600) →
      (strict = true →
        request strict ep res =
          (.error (.wrongReturnCode ep.retcode res.status ep.uri), [])) ∧
      (strict = false →
        (request strict ep res).2 =
          [.wrongReturnCodeWarn ep.retcode res.status ep.uri] ∧
        (request strict ep res).1 =
          (match jsonGet res.body ("data".toList) with
           | some d => .ok d
           | none => .error .malformedResponse))) := by
  constructor
  · intro hr
    simp only [request, if_pos hm, raise_for_status, if_pos hr]
  · intro hr
    constructor
    · rintro rfl
      simp only [request, if_pos hm, raise_for_status, if_neg hr]
      simp
    · rintro rfl
      simp only [request, if_pos hm, raise_for_status, if_neg hr,
        Bool.false_eq_true, if_false]
      cases jsonGet res.body ("data".toList) <;> simp

/-- Witness for C1 at a non-strict mismatch 200-documented / 201-actual. -/
theorem c1_status_mismatch_amended_witness :
    ((epC1.retcode ≠
        some ({ status := 201, body := Json.obj [(("data".toList), Json.null)]
              } : HttpResponse).status)) ∧
    (¬(400 ≤ (201 : Int) ∧ (201 : Int) < 600) →
      (false = true →
        request false epC1
            { status := 201, body := Json.obj [(("data".toList), Json.null)] } =
          (.error (.wrongReturnCode epC1.retcode 201 epC1.uri), [])) ∧
      (false = false →
        (request false epC1
            { status := 201, body := Json.obj [(("data".toList), Json.null)] }).2 =
          [.wrongReturnCodeWarn epC1.retcode 201 epC1.uri] ∧
        (request false epC1
            { status := 201, body := Json.obj [(("data".toList), Json.null)] }).1 =
          (match jsonGet (Json.obj [(("data".toList), Json.null)]) ("data".toList) with
           | some d => .ok d
           | none => .error .malformedResponse))) :=
  ⟨by simp [epC1, ApiEndpoint.mkNew],
   (c1_status_mismatch_amended false epC1
      { status := 201, body := Json.obj [(("data".toList), Json.null)] }
      (by simp [epC1, ApiEndpoint.mkNew])).2⟩

/-- C1 counterexample: strict mode, endpoint documented 200, server answers
404 with a well-formed data envelope — the call fails with the
transport-level `HTTPError` from `raise_for_status`, not with
`WrongReturnCode`; and in non-strict mode the same call also fails instead
of returning the decoded payload. -/
theorem c1_counterexample :
    request true epC1 resC1 = (.error (.httpError 404), []) ∧
    request false epC1 resC1 = (.error (.httpError 404), []) ∧
    ReqError.httpError 404 ≠
      ReqError.wrongReturnCode (some 200) 404 ("/api/v3/user".toList) :=
  ⟨rfl, rfl, by decide⟩

/-- Helper: erasing one key never makes another key appear. -/
theorem lookupA_eraseA_none {α : Type} (kwargs : List (Str × α))
    (k name : Str) (h : lookupA kwargs name = none) :
    lookupA (eraseA kwargs k) name = none := by
  induction kwargs with
  | nil => rfl
  | cons kv rest ih =>
    obtain ⟨k0, v0⟩ := kv
    simp only [lookupA] at h
    split at h
    · exact absurd h (by simp)
    · simp only [eraseA]
      split
      · exact h
      · simp only [lookupA]
        rw [if_neg (by assumption)]
        exact ih h

/-- Helper: the query-partition loop fails with `missingParameter` whenever
some declared non-optional query parameter has no same-named kwarg. -/
theorem popQueryParams_missing (qps : List (Str × Param))
    (kwargs : List (Str × Json)) (name : Str) (p : Param)
    (hmem : (name, p) ∈ qps) (hopt : p.is_optional = false)
    (hnk : lookupA kwargs name = none) :
    ∃ m, popQueryParams qps kwargs = .error (.missingParameter m) := by
  induction qps generalizing kwargs with
  | nil => simp at hmem
  | cons np rest ih =>
    obtain ⟨n0, p0⟩ := np
    rcases List.mem_cons.mp hmem with heq | htail
    · injection heq with h1 h2
      subst h1
      subst h2
      simp only [popQueryParams, hnk, hopt]
      exact ⟨name, by simp⟩
    · simp only [popQueryParams]
      cases hl : lookupA kwargs n0 with
      | some v =>
        obtain ⟨m, hm⟩ := ih (eraseA kwargs n0) htail
          (lookupA_eraseA_none kwargs n0 name hnk)
        rw [hm]
        exact ⟨m, rfl⟩
      | none =>
        by_cases hop : p0.is_optional = true
        · simp only [hop, Bool.not_true, Bool.false_eq_true, if_false]
          exact ih kwargs htail hnk
        · simp only [Bool.not_eq_true] at hop
          simp only [hop, Bool.not_false, if_true]
          exact ⟨n0, rfl⟩

/-- C4: an endpoint declaring a non-optional parameter in its `query` group,
invoked without a same-named keyword argument, always fails with the
missing-mandatory-parameter error, and the failure happens in
`_prepare_request`, before the injected transport runs: the transport
invocation count is 0 for every transport. -/
theorem c4_missing_mandatory_query (conf : Conf) (current : List Str)
    (ep : ApiEndpoint) (strict : Bool)
    (kwargs : List (Str × Json)) (qps : List (Str × Param))
    (name : Str) (p : Param)
    (hq : lookupA ep.params queryKey = some qps)
    (hmem : (name, p) ∈ qps) (hopt : p.is_optional = false)
    (hnk : lookupA kwargs name = none) :
    ∃ m, ∀ transport : PreparedRequest → HttpResponse,
      invoke conf current (.endpoint ep) strict transport kwargs =
        (.error (.missingParameter m), [], 0) := by
  obtain ⟨m, hm⟩ := popQueryParams_missing qps kwargs name p hmem hopt hnk
  refine ⟨m, fun transport => ?_⟩
  simp only [invoke, prepare_request, hq, hm]

/-- A concrete endpoint with one mandatory query parameter `q`. -/
theorem c4_missing_mandatory_query_witness :
    ∃ m, ∀ transport : PreparedRequest → HttpResponse,
      invoke { url := "u".toList, login := "l".toList, password := "p".toList }
          (["api".toList, "v3".toList, "x".toList, "get".toList])
          (.endpoint { ApiEndpoint.mkNew ("get".toList) ("/api/v3/x".toList) []
                        with params := [(queryKey,
                          [(("q".toList),
                            { is_optional := false, field := "q".toList,
                              default := [], path := [], type := none,
                              possible_values := [], description := [] })])] })
          false transport [] =
        (.error (.missingParameter m), [], 0) :=
  c4_missing_mandatory_query _ _ _ false [] _ ("q".toList)
    { is_optional := false, field := "q".toList, default := [], path := [],
      type := none, possible_values := [], description := [] } rfl
    (by simp) rfl rfl

/-- C10: mandatory-parameter enforcement only inspects the `query` group.
An endpoint with a non-optional parameter in any other group (e.g. the
body group), invoked without that keyword argument, does not fail with
the missing-parameter error: `_prepare_request` succeeds, the remaining
kwargs become the serialized body for put/post/delete, and the
transport is invoked exactly once. -/
theorem c10_body_group_not_enforced (conf : Conf) (current : List Str)
    (ep : ApiEndpoint) (strict : Bool)
    (transport : PreparedRequest → HttpResponse)
    (kwargs : List (Str × Json)) (bgroup : Str) (bps : List (Str × Param))
    (name : Str) (p : Param)
    (hg : bgroup ≠ queryKey)
    (hb : lookupA ep.params bgroup = some bps)
    (hmem : (name, p) ∈ bps) (hopt : p.is_optional = false)
    (hnk : lookupA kwargs name = none)
    (hq : lookupA ep.params queryKey = none)
    (hmut : ep.method ∈ mutatingMethods) :
    prepare_request conf current (.endpoint ep) kwargs =
      .ok { method := ep.method,
            uri := joinChar '/' (conf.url :: current.dropLast),
            headers := make_headers conf, query := [],
            data := some kwargs } ∧
    (invoke conf current (.endpoint ep) strict transport kwargs).2.2 = 1 := by
  have hprep : prepare_request conf current (.endpoint ep) kwargs =
      .ok { method := ep.method,
            uri := joinChar '/' (conf.url :: current.dropLast),
            headers := make_headers conf, query := [],
            data := some kwargs } := by
    simp only [prepare_request, hq, if_pos hmut]
  refine ⟨hprep, ?_⟩
  simp only [invoke, hprep]

/-- Witness for C10 at a post endpoint with a mandatory body parameter. -/
theorem c10_body_group_not_enforced_witness :
    prepare_request confW
        (["api".toList, "v3".toList, "x".toList, "post".toList])
        (.endpoint epW10) [] =
      .ok { method := "post".toList,
            uri := joinChar '/' (confW.url ::
              (["api".toList, "v3".toList, "x".toList, "post".toList]).dropLast),
            headers := make_headers confW, query := [], data := some [] } ∧
    (invoke confW (["api".toList, "v3".toList, "x".toList, "post".toList])
        (.endpoint epW10) false
        (fun _ => { status := 200, body := Json.obj [] }) []).2.2 = 1 :=
  c10_body_group_not_enforced confW _ epW10 false _ [] ("body".toList) _
    ("b".toList)
    { is_optional := false, field := "b".toList, default := [], path := [],
      type := none, possible_values := [], description := [] }
    (by decide) rfl (by simp [epW10]) rfl rfl rfl (by decide)

/-- C2 (amended): the parametric slot of a node is unique and is never
overwritten — `place` raises `ParamAlreadyExist` whenever the slot is
taken — and when `_make_apis_dict` encounters a second, differently-named
parametric part at a node it reports a recoverable warning, keeps the
earlier registration's name, and continues building the conflicting
endpoint's remaining path inside the existing parametric subtree (the
endpoint is merged there, not dropped from the tree). -/
theorem c2_param_conflict_amended :
    (∀ (pn : Option Str) (pm : ApiTree) (paths : List (Str × ApiTree))
        (part : Str) (v : ApiTree),
        startsWC ':' part = true →
        placeA pn (some pm) paths part v = .error .paramAlreadyExist) ∧
    (∀ (pn : Str) (child : ApiTree) (paths : List (Str × ApiTree))
        (part : Str) (rest : List Str) (api : ApiEndpoint)
        (child2 : ApiTree) (ws : List Warning),
        startsWC ':' part = true →
        pn ≠ part →
        lookupA paths part = none →
        insertParts child rest api = .ok (child2, ws) →
        insertParts (.node (some pn) (some child) paths) (part :: rest) api =
          .ok (.node (some pn) (some child2) paths,
               .conflictingParam api.uri :: ws)) := by
  constructor
  · intro pn pm paths part v hcolon
    simp only [placeA, hcolon, if_true]
  · intro pn child paths part rest api child2 ws hcolon hne hlk hins
    simp only [insertParts, hlk, hins]
    have hguard : (Option.isSome (some child) &&
        (some pn : Option Str) = some part) = false := by
      simp [hne]
    rw [hguard]
    simp only [Bool.false_eq_true, if_false, hcolon, if_true]

/-- Witness for C2 at a concrete conflicting insertion. -/
theorem c2_param_conflict_amended_witness :
    insertParts (.node (some (":x".toList)) (some (.node none none []))
        [])
        ((":y".toList) :: ["t2".toList]) epB2 =
      .ok (.node (some (":x".toList))
            (some (.node none none
              [(("t2".toList),
                .node none none [(("get".toList), .endpoint epB2)])]))
            [],
           [.conflictingParam epB2.uri]) :=
  c2_param_conflict_amended.2 (":x".toList) (.node none none []) []
    (":y".toList) ["t2".toList] epB2
    (.node none none [(("t2".toList),
      .node none none [(("get".toList), .endpoint epB2)])])
    [] rfl (by decide) rfl rfl

/-- C2 counterexample: building the tree from `get /a/:x/t1` followed by the
conflicting `get /a/:y/t2` emits the recoverable warning, but the second
endpoint is not skipped: it is reachable inside the earlier `:x`
parametric subtree (walking a/:x/t2 finds it under its method key), i.e.
the conflicting endpoint is merged into the existing parametric subtree. -/
theorem c2_counterexample :
    make_apis_dict [epA2, epB2] =
      .ok (rootC2, [.conflictingParam epB2.uri]) ∧
    lookupApi rootC2 ["a".toList, ":x".toList, "t2".toList]
        ("get".toList) = some (.endpoint epB2) :=
  ⟨rfl, rfl⟩

/-- Helper: a strict step is also an `into` step. -/
theorem strictInto_into (t : ApiTree) (p : Str) (r : ApiTree)
    (h : strictInto t p = some r) : t.into p = some r := by
  cases t with
  | endpoint ep => simp [strictInto] at h
  | node pn pm paths =>
    simp only [strictInto] at h
    simp only [ApiTree.into]
    cases hl : lookupA paths p with
    | some t2 => rw [hl] at h; exact h
    | none =>
      rw [hl] at h
      by_cases hc : (pm.isSome && decide (pn = some p)) = true
      · rw [if_pos hc] at h
        exact h
      · rw [if_neg hc] at h
        exact absurd h (by simp)

/-- Helper: a strict walk is also an `into` walk. -/
theorem walkStrict_walk (parts : List Str) (t r : ApiTree)
    (h : walkStrict t parts = some r) : walk t parts = some r := by
  induction parts generalizing t with
  | nil => exact h
  | cons p ps ih =>
    simp only [walkStrict] at h
    simp only [walk]
    cases hs : strictInto t p with
    | some t2 =>
      rw [hs] at h
      rw [strictInto_into t p t2 hs]
      exact ih t2 h
    | none => rw [hs] at h; exact absurd h (by simp)

/-- Helper: a strict lookup is also an `into`-walk lookup. -/
theorem lookupApiStrict_lookupApi (root : ApiTree) (parts : List Str)
    (m : Str) (r : ApiTree) (h : lookupApiStrict root parts m = some r) :
    lookupApi root parts m = some r := by
  simp only [lookupApiStrict] at h
  simp only [lookupApi]
  cases hw : walkStrict root parts with
  | some t2 =>
    rw [hw] at h
    rw [walkStrict_walk parts root t2 hw]
    exact h
  | none => rw [hw] at h; exact absurd h (by simp)

/-- Helper: lookup after updating the same key. -/
theorem lookupA_updateA_self {α : Type} (l : List (Str × α)) (k : Str)
    (v : α) : lookupA (updateA l k v) k = some v := by
  induction l with
  | nil => simp [updateA, lookupA]
  | cons kv rest ih =>
    obtain ⟨k0, v0⟩ := kv
    simp only [updateA]
    by_cases h : k0 = k
    · simp [lookupA, h]
    · simp only [if_neg h, lookupA, if_neg h]
      exact ih

/-- Helper: lookup after updating another key. -/
theorem lookupA_updateA_other {α : Type} (l : List (Str × α)) (k k2 : Str)
    (v : α) (h : k2 ≠ k) : lookupA (updateA l k v) k2 = lookupA l k2 := by
  induction l with
  | nil =>
    simp only [updateA, lookupA]
    rw [if_neg (Ne.symm h)]
  | cons kv rest ih =>
    obtain ⟨k0, v0⟩ := kv
    simp only [updateA]
    by_cases h0 : k0 = k
    · subst h0
      simp only [lookupA]
      rw [if_neg (Ne.symm h), if_neg (Ne.symm h)]
    · simp only [if_neg h0, lookupA]
      by_cases h2 : k0 = k2
      · simp [h2]
      · simp only [if_neg h2]
        exact ih

/-- Helper: strict lookup unfolding on a cons path. -/
theorem lookupApiStrict_cons (t : ApiTree) (q : Str) (qs : List Str)
    (m : Str) :
    lookupApiStrict t (q :: qs) m =
      (match strictInto t q with
       | some t2 => lookupApiStrict t2 qs m
       | none => none) := by
  simp only [lookupApiStrict, walkStrict]
  cases strictInto t q with
  | some t2 => rfl
  | none => rfl

/-- Helper: strict lookup on an empty path is a method lookup. -/
theorem lookupApiStrict_nil (pn : Option Str) (pm : Option ApiTree)
    (paths : List (Str × ApiTree)) (m : Str) :
    lookupApiStrict (.node pn pm paths) [] m = lookupA paths m := rfl

/-- Helper: non-interference of equal-headed paths descends to the tails. -/
theorem nonInterfering_cons (a : Str) (as bs : List Str)
    (h : nonInterfering (a :: as) (a :: bs) = true) :
    nonInterfering as bs = true := by
  simpa [nonInterfering, isPre] using h

/-- Helper: a singleton path does not interfere with a longer path starting
with the same head — so the heads differ. -/
theorem nonInterfering_single_left (m b : Str) (bs : List Str)
    (h : nonInterfering [m] (b :: bs) = true) : m ≠ b := by
  rintro rfl
  simp [nonInterfering, isPre] at h

/-- Helper: symmetric version. -/
theorem nonInterfering_single_right (a : Str) (as : List Str) (m : Str)
    (h : nonInterfering (a :: as) [m] = true) : a ≠ m := by
  rintro rfl
  simp [nonInterfering, isPre] at h

/-- Helper: a warning-free insertion makes its own endpoint reachable by the
strict walk of its own uri segments followed by its method key. -/
theorem insert_reaches (parts : List Str) (t t2 : ApiTree) (api : ApiEndpoint)
    (hm : startsWC ':' api.method = false)
    (h : insertParts t parts api = .ok (t2, [])) :
    lookupApiStrict t2 parts api.method = some (.endpoint api) := by
  induction parts generalizing t t2 with
  | nil =>
    cases t with
    | endpoint ep => simp [insertParts] at h
    | node pn pm paths =>
      simp only [insertParts, placeA, hm, Bool.false_eq_true, if_false] at h
      injection h with h'
      injection h' with h1 h2
      subst h1
      rw [lookupApiStrict_nil]
      exact lookupA_updateA_self paths api.method (.endpoint api)
  | cons part rest ih =>
    cases t with
    | endpoint ep => simp [insertParts] at h
    | node pn pm paths =>
      simp only [insertParts] at h
      cases hlk : lookupA paths part with
      | some child =>
        simp only [hlk] at h
        cases hins : insertParts child rest api with
        | error e => simp only [hins] at h; exact absurd h (by simp)
        | ok pair =>
          obtain ⟨child2, ws⟩ := pair
          simp only [hins] at h
          injection h with h'
          injection h' with h1 h2
          subst h1
          subst h2
          rw [lookupApiStrict_cons]
          have hstep : strictInto (.node pn pm (updateA paths part child2))
              part = some child2 := by
            simp only [strictInto, lookupA_updateA_self]
          rw [hstep]
          exact ih child child2 hins
      | none =>
        simp only [hlk] at h
        by_cases hg : (pm.isSome && decide (pn = some part)) = true
        · rw [if_pos hg] at h
          cases pm with
          | none => simp at hg
          | some child =>
            cases hins : insertParts child rest api with
            | error e => simp only [hins] at h; exact absurd h (by simp)
            | ok pair =>
              obtain ⟨child2, ws⟩ := pair
              simp only [hins] at h
              injection h with h'
              injection h' with h1 h2
              subst h1
              subst h2
              have hpn : pn = some part := by
                rw [Bool.and_eq_true] at hg
                exact of_decide_eq_true hg.2
              rw [lookupApiStrict_cons]
              have hstep : strictInto (.node pn (some child2) paths) part =
                  some child2 := by
                simp [strictInto, hlk, hpn]
              rw [hstep]
              exact ih child child2 hins
        · rw [if_neg hg] at h
          by_cases hcolon : startsWC ':' part = true
          · rw [if_pos hcolon] at h
            cases pm with
            | some child =>
              cases hins : insertParts child rest api with
              | error e => simp only [hins] at h; exact absurd h (by simp)
              | ok pair =>
                obtain ⟨child2, ws⟩ := pair
                simp only [hins] at h
                injection h with h'
                injection h' with h1 h2
                exact absurd h2 (by simp)
            | none =>
              cases hins : insertParts (.node none none []) rest api with
              | error e => simp only [hins] at h; exact absurd h (by simp)
              | ok pair =>
                obtain ⟨child2, ws⟩ := pair
                simp only [hins] at h
                injection h with h'
                injection h' with h1 h2
                subst h1
                subst h2
                rw [lookupApiStrict_cons]
                have hstep : strictInto (.node (some part) (some child2) paths)
                    part = some child2 := by
                  simp [strictInto, hlk]
                rw [hstep]
                exact ih _ child2 hins
          · rw [if_neg hcolon] at h
            cases hins : insertParts (.node none none []) rest api with
            | error e => simp only [hins] at h; exact absurd h (by simp)
            | ok pair =>
              obtain ⟨child2, ws⟩ := pair
              simp only [hins] at h
              injection h with h'
              injection h' with h1 h2
              subst h1
              subst h2
              rw [lookupApiStrict_cons]
              have hstep : strictInto (.node pn pm (updateA paths part child2))
                  part = some child2 := by
                simp only [strictInto, lookupA_updateA_self]
              rw [hstep]
              exact ih _ child2 hins

/-- Helper: a warning-free insertion whose full path does not interfere with
a previously reachable full path preserves that strict lookup. -/
theorem insert_preserves (parts2 : List Str) (t t2 : ApiTree)
    (api2 : ApiEndpoint) (parts1 : List Str) (m1 : Str) (e1 : ApiTree)
    (h : insertParts t parts2 api2 = .ok (t2, []))
    (hprev : lookupApiStrict t parts1 m1 = some e1)
    (hni : nonInterfering (parts1 ++ [m1]) (parts2 ++ [api2.method]) = true) :
    lookupApiStrict t2 parts1 m1 = some e1 := by
  induction parts2 generalizing t t2 parts1 with
  | nil =>
    cases t with
    | endpoint ep => simp [insertParts] at h
    | node pn pm paths =>
      simp only [insertParts, placeA] at h
      by_cases hcolon : startsWC ':' api2.method = true
      · rw [if_pos hcolon] at h
        cases pm with
        | some c => simp at h
        | none =>
          injection h with h'
          injection h' with h1 h2
          subst h1
          cases parts1 with
          | nil =>
            rw [lookupApiStrict_nil] at hprev ⊢
            exact hprev
          | cons q qs =>
            rw [lookupApiStrict_cons] at hprev ⊢
            cases hq : lookupA paths q with
            | some c =>
              have hold : strictInto (.node pn none paths) q = some c := by
                simp [strictInto, hq]
              have hnew : strictInto (.node (some api2.method)
                  (some (.endpoint api2)) paths) q = some c := by
                simp [strictInto, hq]
              rw [hold] at hprev
              rw [hnew]
              exact hprev
            | none =>
              have hold : strictInto (.node pn none paths) q = none := by
                simp [strictInto, hq]
              rw [hold] at hprev
              exact absurd hprev (by simp)
      · rw [if_neg hcolon] at h
        injection h with h'
        injection h' with h1 h2
        subst h1
        cases parts1 with
        | nil =>
          rw [lookupApiStrict_nil] at hprev ⊢
          have hne : m1 ≠ api2.method :=
            nonInterfering_single_left m1 api2.method [] (by simpa using hni)
          rw [lookupA_updateA_other paths api2.method m1 _ hne]
          exact hprev
        | cons q qs =>
          rw [lookupApiStrict_cons] at hprev ⊢
          have hqm : q ≠ api2.method :=
            nonInterfering_single_right q (qs ++ [m1]) api2.method
              (by simpa using hni)
          have hstep : strictInto (.node pn pm
              (updateA paths api2.method (.endpoint api2))) q =
              strictInto (.node pn pm paths) q := by
            simp only [strictInto,
              lookupA_updateA_other paths api2.method q _ hqm]
          rw [hstep]
          exact hprev
  | cons p rest ih =>
    cases t with
    | endpoint ep => simp [insertParts] at h
    | node pn pm paths =>
      simp only [insertParts] at h
      cases hlk : lookupA paths p with
      | some child =>
        simp only [hlk] at h
        cases hins : insertParts child rest api2 with
        | error e => simp only [hins] at h; exact absurd h (by simp)
        | ok pair =>
          obtain ⟨child2, ws⟩ := pair
          simp only [hins] at h
          injection h with h'
          injection h' with h1 h2
          subst h1
          subst h2
          cases parts1 with
          | nil =>
            rw [lookupApiStrict_nil] at hprev ⊢
            have hne : m1 ≠ p :=
              nonInterfering_single_left m1 p (rest ++ [api2.method])
                (by simpa using hni)
            rw [lookupA_updateA_other paths p m1 _ hne]
            exact hprev
          | cons q qs =>
            rw [lookupApiStrict_cons] at hprev ⊢
            by_cases hqp : q = p
            · subst hqp
              have hold : strictInto (.node pn pm paths) q = some child := by
                simp [strictInto, hlk]
              rw [hold] at hprev
              have hnew : strictInto (.node pn pm (updateA paths q child2)) q =
                  some child2 := by
                simp [strictInto, lookupA_updateA_self]
              rw [hnew]
              exact ih child child2 qs hins hprev
                (nonInterfering_cons q (qs ++ [m1]) (rest ++ [api2.method])
                  (by simpa using hni))
            · have hstep : strictInto (.node pn pm (updateA paths p child2)) q =
                  strictInto (.node pn pm paths) q := by
                simp only [strictInto,
                  lookupA_updateA_other paths p q _ hqp]
              rw [hstep]
              exact hprev
      | none =>
        simp only [hlk] at h
        by_cases hg : (pm.isSome && decide (pn = some p)) = true
        · rw [if_pos hg] at h
          cases pm with
          | none => simp at hg
          | some child =>
            cases hins : insertParts child rest api2 with
            | error e => simp only [hins] at h; exact absurd h (by simp)
            | ok pair =>
              obtain ⟨child2, ws⟩ := pair
              simp only [hins] at h
              injection h with h'
              injection h' with h1 h2
              subst h1
              subst h2
              have hpn : pn = some p := by
                rw [Bool.and_eq_true] at hg
                exact of_decide_eq_true hg.2
              cases parts1 with
              | nil =>
                rw [lookupApiStrict_nil] at hprev ⊢
                exact hprev
              | cons q qs =>
                rw [lookupApiStrict_cons] at hprev ⊢
                cases hq : lookupA paths q with
                | some c =>
                  have hold : strictInto (.node pn (some child) paths) q =
                      some c := by simp [strictInto, hq]
                  have hnew : strictInto (.node pn (some child2) paths) q =
                      some c := by simp [strictInto, hq]
                  rw [hold] at hprev
                  rw [hnew]
                  exact hprev
                | none =>
                  by_cases hpq : pn = some q
                  · have hqp : q = p := by
                      rw [hpn] at hpq
                      injection hpq with h3
                      exact h3.symm
                    subst hqp
                    have hold : strictInto (.node pn (some child) paths) q =
                        some child := by simp [strictInto, hq, hpq]
                    rw [hold] at hprev
                    have hnew : strictInto (.node pn (some child2) paths) q =
                        some child2 := by simp [strictInto, hq, hpq]
                    rw [hnew]
                    exact ih child child2 qs hins hprev
                      (nonInterfering_cons q (qs ++ [m1])
                        (rest ++ [api2.method]) (by simpa using hni))
                  · have hold : strictInto (.node pn (some child) paths) q =
                        none := by simp [strictInto, hq, hpq]
                    rw [hold] at hprev
                    exact absurd hprev (by simp)
        · rw [if_neg hg] at h
          by_cases hcolon : startsWC ':' p = true
          · rw [if_pos hcolon] at h
            cases pm with
            | some child =>
              cases hins : insertParts child rest api2 with
              | error e => simp only [hins] at h; exact absurd h (by simp)
              | ok pair =>
                obtain ⟨child2, ws⟩ := pair
                simp only [hins] at h
                injection h with h'
                injection h' with h1 h2
                exact absurd h2 (by simp)
            | none =>
              cases hins : insertParts (.node none none []) rest api2 with
              | error e => simp only [hins] at h; exact absurd h (by simp)
              | ok pair =>
                obtain ⟨child2, ws⟩ := pair
                simp only [hins] at h
                injection h with h'
                injection h' with h1 h2
                subst h1
                subst h2
                cases parts1 with
                | nil =>
                  rw [lookupApiStrict_nil] at hprev ⊢
                  exact hprev
                | cons q qs =>
                  rw [lookupApiStrict_cons] at hprev ⊢
                  cases hq : lookupA paths q with
                  | some c =>
                    have hold : strictInto (.node pn none paths) q = some c := by
                      simp [strictInto, hq]
                    have hnew : strictInto (.node (some p) (some child2) paths)
                        q = some c := by simp [strictInto, hq]
                    rw [hold] at hprev
                    rw [hnew]
                    exact hprev
                  | none =>
                    have hold : strictInto (.node pn none paths) q = none := by
                      simp [strictInto, hq]
                    rw [hold] at hprev
                    exact absurd hprev (by simp)
          · rw [if_neg hcolon] at h
            cases hins : insertParts (.node none none []) rest api2 with
            | error e => simp only [hins] at h; exact absurd h (by simp)
            | ok pair =>
              obtain ⟨child2, ws⟩ := pair
              simp only [hins] at h
              injection h with h'
              injection h' with h1 h2
              subst h1
              subst h2
              cases parts1 with
              | nil =>
                rw [lookupApiStrict_nil] at hprev ⊢
                have hne : m1 ≠ p := by
                  rintro rfl
                  rw [hprev] at hlk
                  exact absurd hlk (by simp)
                rw [lookupA_updateA_other paths p m1 _ hne]
                exact hprev
              | cons q qs =>
                rw [lookupApiStrict_cons] at hprev ⊢
                by_cases hqp : q = p
                · subst hqp
                  have hold : strictInto (.node pn pm paths) q = none := by
                    simp only [strictInto, hlk]
                    rw [if_neg hg]
                  rw [hold] at hprev
                  exact absurd hprev (by simp)
                · have hstep : strictInto
                      (.node pn pm (updateA paths p child2)) q =
                      strictInto (.node pn pm paths) q := by
                    simp only [strictInto,
                      lookupA_updateA_other paths p q _ hqp]
                  rw [hstep]
                  exact hprev

/-- Helper: a warning-free build of a cons list splits into a warning-free
head insertion and a warning-free build of the tail. -/
theorem insertAll_split (a : ApiEndpoint) (apis : List ApiEndpoint)
    (t t2 : ApiTree) (h : insertAll t (a :: apis) = .ok (t2, [])) :
    ∃ t1, insertParts t a.parted_uri a = .ok (t1, []) ∧
      insertAll t1 apis = .ok (t2, []) := by
  simp only [insertAll] at h
  cases h1 : insertParts t a.parted_uri a with
  | error e => simp only [h1] at h; exact absurd h (by simp)
  | ok pair1 =>
    obtain ⟨t1, ws1⟩ := pair1
    simp only [h1] at h
    cases h2 : insertAll t1 apis with
    | error e => simp only [h2] at h; exact absurd h (by simp)
    | ok pair2 =>
      obtain ⟨t2', ws2⟩ := pair2
      simp only [h2] at h
      injection h with h'
      injection h' with h3 h4
      subst h3
      obtain ⟨hw1, hw2⟩ := List.append_eq_nil.mp h4
      subst hw1
      subst hw2
      exact ⟨t1, rfl, h2⟩

/-- Helper: a warning-free build preserves a strict lookup that interferes
with none of the inserted full paths. -/
theorem insertAll_preserves (apis : List ApiEndpoint) (t t2 : ApiTree)
    (parts1 : List Str) (m1 : Str) (e1 : ApiTree)
    (h : insertAll t apis = .ok (t2, []))
    (hprev : lookupApiStrict t parts1 m1 = some e1)
    (hni : ∀ b ∈ apis, nonInterfering (parts1 ++ [m1]) (fullPath b) = true) :
    lookupApiStrict t2 parts1 m1 = some e1 := by
  induction apis generalizing t with
  | nil =>
    simp only [insertAll] at h
    injection h with h'
    injection h' with h1 _
    subst h1
    exact hprev
  | cons a rest ih =>
    obtain ⟨t1, ha, hrest⟩ := insertAll_split a rest t t2 h
    exact ih t1 hrest
      (insert_preserves a.parted_uri t t1 a parts1 m1 e1 ha hprev
        (hni a (by simp)))
      (fun b hb => hni b (by simp [hb]))

/-- Helper: after a warning-free build of a pairwise non-interfering list
whose methods are not parametric, every endpoint is strictly reachable. -/
theorem insertAll_reaches (apis : List ApiEndpoint) (t t2 : ApiTree)
    (h : insertAll t apis = .ok (t2, []))
    (hmeth : ∀ a ∈ apis, startsWC ':' a.method = false)
    (hpw : pairwiseNonInterfering apis = true) :
    ∀ a ∈ apis, lookupApiStrict t2 a.parted_uri a.method =
      some (.endpoint a) := by
  induction apis generalizing t with
  | nil => intro a ha; simp at ha
  | cons a0 rest ih =>
    intro a ha
    obtain ⟨t1, ha0, hrest⟩ := insertAll_split a0 rest t t2 h
    simp only [pairwiseNonInterfering, Bool.and_eq_true] at hpw
    obtain ⟨hpw1, hpw2⟩ := hpw
    rcases List.mem_cons.mp ha with rfl | hmem
    · exact insertAll_preserves rest t1 t2 a.parted_uri a.method
        (.endpoint a) hrest
        (insert_reaches a.parted_uri t t1 a (hmeth a (by simp)) ha0)
        (fun b hb => List.all_eq_true.mp hpw1 b hb)
    · exact ih t1 hrest (fun b hb => hmeth b (by simp [hb])) hpw2 a hmem

/-- C6: for every descriptor produced by parsing a conflict-free document
(the build succeeds with no parametric-conflict warning, no two full
paths are prefix-related, and no method key looks parametric), walking
the built tree segment-by-segment from the root with the descriptor's own
`parted_uri` and then looking up its method key finds exactly that
descriptor. -/
theorem c6_parse_build_lookup_roundtrip (text : Str)
    (eps : List ApiEndpoint) (ws : List Warning) (root : ApiTree)
    (hparse : parse_apidoc text = .ok (eps, ws))
    (hbuild : make_apis_dict eps = .ok (root, []))
    (hcf : conflictFreeB eps = true) :
    ∀ api ∈ eps, lookupApi root api.parted_uri api.method =
      some (.endpoint api) := by
  intro api hmem
  rw [conflictFreeB, Bool.and_eq_true] at hcf
  obtain ⟨hmeths, hpw⟩ := hcf
  have hm : ∀ a ∈ eps, startsWC ':' a.method = false := by
    intro a ha
    have := List.all_eq_true.mp hmeths a ha
    simpa using this
  exact lookupApiStrict_lookupApi root api.parted_uri api.method _
    (insertAll_reaches eps _ root hbuild hm hpw api hmem)

/-- Witness for C6 on a concrete two-endpoint document. -/
theorem c6_parse_build_lookup_roundtrip_witness :
    parse_apidoc docW6 = .ok (epsW6, []) ∧
    make_apis_dict epsW6 = .ok (rootW6, []) ∧
    conflictFreeB epsW6 = true ∧
    lookupApi rootW6 epW6a.parted_uri epW6a.method =
      some (.endpoint epW6a) :=
  ⟨rfl, rfl, by decide,
   c6_parse_build_lookup_roundtrip docW6 epsW6 [] rootW6 rfl rfl (by decide)
     epW6a (by decide)⟩

/-- Helper: a parsed declaration line yields a fresh endpoint without a
retcode. -/
theorem parseDeclLine_fields (l : Str) (ep : ApiEndpoint) (ws2 : List Warning)
    (h : parseDeclLine l = .ok (ep, ws2)) : ep.retcode = none := by
  simp only [parseDeclLine] at h
  repeat' split at h
  all_goals
    first
    | (injection h with h3
       injection h3 with h4 h5
       rw [← h4])
    | simp at h
  all_goals rfl

/-- Helper: `add_param` only touches the params dict. -/
theorem add_param_fields (ep : ApiEndpoint) (g t : Option Str) (f d : Str)
    (ep2 : ApiEndpoint) (h : ep.add_param g t f d = .ok ep2) :
    ep2.retcode = ep.retcode ∧ ep2.method = ep.method ∧
      ep2.uri = ep.uri ∧ ep2.parted_uri = ep.parted_uri ∧
      ep2.title = ep.title := by
  simp only [ApiEndpoint.add_param] at h
  split at h
  · exact absurd h (by simp)
  · injection h with h'
    rw [← h']
    exact ⟨rfl, rfl, rfl, rfl, rfl⟩

/-- Helper: what a successful `add_success` did: the group parsed to `n`,
the truthiness-updated retcode check passed, and the retcode became the
updated value; all other identifying fields are untouched. -/
theorem add_success_spec (ep : ApiEndpoint) (g t : Option Str) (f d : Str)
    (ep2 : ApiEndpoint) (h : ep.add_success g t f d = .ok ep2) :
    ∃ n, successGroupStatus g = some n ∧ n = pyOr ep.retcode n ∧
      ep2.retcode = some (pyOr ep.retcode n) ∧ ep2.method = ep.method ∧
      ep2.uri = ep.uri ∧ ep2.parted_uri = ep.parted_uri ∧
      ep2.title = ep.title := by
  simp only [ApiEndpoint.add_success] at h
  split at h
  · exact absurd h (by simp)
  · rename_i n hn
    split at h
    · exact absurd h (by simp)
    · rename_i hne
      split at h
      · exact absurd h (by simp)
      · injection h with h'
        rw [← h']
        simp only [Decidable.not_not] at hne
        exact ⟨n, hn, hne, rfl, rfl, rfl, rfl, rfl⟩

/-- Helper: two prefixes of the same string are comparable. -/
theorem startsW_comparable (l p1 p2 : Str) (h1 : startsW p1 l = true)
    (h2 : startsW p2 l = true) :
    isPre p1 p2 = true ∨ isPre p2 p1 = true := by
  induction l generalizing p1 p2 with
  | nil =>
    cases p1 with
    | nil => exact Or.inl rfl
    | cons a as => simp [startsW] at h1
  | cons c cs ih =>
    cases p1 with
    | nil => exact Or.inl rfl
    | cons a as =>
      cases p2 with
      | nil => exact Or.inr rfl
      | cons b bs =>
        simp only [startsW, Bool.and_eq_true, decide_eq_true_eq] at h1 h2
        obtain ⟨ha, h1'⟩ := h1
        obtain ⟨hb, h2'⟩ := h2
        subst ha
        subst hb
        rcases ih as bs h1' h2' with hl | hr
        · exact Or.inl (by simp [isPre, hl])
        · exact Or.inr (by simp [isPre, hr])

/-- Helper: incomparable prefixes cannot both start the same line. -/
theorem not_startsW_of_startsW (l p1 p2 : Str) (h1 : startsW p1 l = true)
    (hi1 : isPre p1 p2 = false) (hi2 : isPre p2 p1 = false) :
    startsW p2 l = false := by
  by_contra h2
  rw [Bool.not_eq_false] at h2
  rcases startsW_comparable l p1 p2 h1 h2 with h | h
  · rw [h] at hi1; exact absurd hi1 (by simp)
  · rw [h] at hi2; exact absurd hi2 (by simp)

/-- Helper (core of C5): whenever the line loop returns successfully, the
retcode bookkeeping check holds of the remaining lines. -/
theorem parse_ok_statuses (lines : List Str) : ∀ (fin : List ApiEndpoint)
    (cur : Option ApiEndpoint) (ws : List Warning)
    (r : List ApiEndpoint × List Warning),
    parseLines fin cur ws lines = .ok r →
    statusesOkFrom (curRetcode cur) lines = true := by
  induction lines with
  | nil => intro fin cur ws r h; rfl
  | cons l rest ih =>
    intro fin cur ws r h
    simp only [parseLines] at h
    by_cases hd : startsW apiTag l = true
    · rw [if_pos hd] at h
      cases hdl : parseDeclLine l with
      | error e => simp only [hdl] at h; simp at h
      | ok pair =>
        obtain ⟨ep0, ws2⟩ := pair
        simp only [hdl] at h
        have h0 : ep0.retcode = none := parseDeclLine_fields l ep0 ws2 hdl
        simp only [statusesOkFrom, isDeclLine, hd, if_true]
        cases cur with
        | some prev =>
          have hres := ih _ _ _ _ h
          simp only [curRetcode, h0] at hres
          exact hres
        | none =>
          have hres := ih _ _ _ _ h
          simp only [curRetcode, h0] at hres
          exact hres
    · rw [if_neg hd] at h
      have hd' : startsW apiTag l = false := by simpa using hd
      by_cases hp : startsW apiParamTag l = true
      · rw [if_pos hp] at h
        have hs : startsW apiSuccessTag l = false :=
          not_startsW_of_startsW l apiParamTag apiSuccessTag hp
            (by decide) (by decide)
        cases cur with
        | none => simp at h
        | some ep =>
          rcases hpt : parseTagRest (List.drop 9 l) with ⟨g, t, f, d⟩
          simp only [hpt] at h
          cases hap : ep.add_param g t f d with
          | error e => simp only [hap] at h; simp at h
          | ok ep2 =>
            simp only [hap] at h
            have hres := ih _ _ _ _ h
            simp only [curRetcode, (add_param_fields ep g t f d ep2 hap).1]
              at hres
            simp only [statusesOkFrom, isDeclLine, hd', Bool.false_eq_true,
              if_false, hs, curRetcode]
            exact hres
      · rw [if_neg hp] at h
        by_cases hsuc : startsW apiSuccessTag l = true
        · rw [if_pos hsuc] at h
          cases cur with
          | none => simp at h
          | some ep =>
            rcases hpt : parseTagRest (List.drop 11 l) with ⟨g, t, f, d⟩
            simp only [hpt] at h
            cases has : ep.add_success g t f d with
            | error e => simp only [has] at h; simp at h
            | ok ep2 =>
              simp only [has] at h
              obtain ⟨n, hn, hcond, hrc, _⟩ :=
                add_success_spec ep g t f d ep2 has
              have hds : declaredStatus l = some n := by
                simp only [declaredStatus, hpt]
                exact hn
              have hres := ih _ _ _ _ h
              simp only [curRetcode, hrc] at hres
              simp only [statusesOkFrom, isDeclLine, hd', Bool.false_eq_true,
                if_false, hsuc, if_true, hds, curRetcode]
              rw [Bool.and_eq_true]
              exact ⟨decide_eq_true hcond, hres⟩
        · rw [if_neg hsuc] at h
          have hsuc' : startsW apiSuccessTag l = false := by simpa using hsuc
          have hres := ih _ _ _ _ h
          simp only [statusesOkFrom, isDeclLine, hd', Bool.false_eq_true,
            if_false, hsuc']
          exact hres

/-- C5 (amended): a parse that survives the retcode bookkeeping is exactly
one in which no response line declares a status on which `add_success`
raises - i.e. declaring a status different from the previously
established nonzero status always aborts the parse (shown on the spec's
own two-line `(200)`/`(201)` test as well), but a declared status 0 is
treated as unset by the `retcode or group` truthiness and is silently
overridden. -/
theorem c5_conflicting_status_amended :
    (∀ text : Str,
        statusesOkFrom none (splitChar '\n' text) = false →
        ∃ e, parse_apidoc text = .error e) ∧
    parse_apidoc docC5conflict = .error .twoRetcodes := by
  constructor
  · intro text hbad
    cases hp : parse_apidoc text with
    | error e => exact ⟨e, rfl⟩
    | ok r =>
      have hp' : parseLines [] none [] (splitChar '\n' text) = .ok r := hp
      have hok := parse_ok_statuses (splitChar '\n' text) [] none [] r hp'
      simp only [curRetcode] at hok
      rw [hok] at hbad
      exact absurd hbad (by simp)
  · rfl

/-- Witness for C5 on the spec's own two-line conflict test. -/
theorem c5_conflicting_status_amended_witness :
    statusesOkFrom none (splitChar '\n' docC5conflict) = false ∧
    (∃ e, parse_apidoc docC5conflict = .error e) :=
  ⟨rfl, c5_conflicting_status_amended.1 docC5conflict rfl⟩

/-- C5 counterexample: the two response lines of `docC5zero` declare the
different statuses 0 and 200, yet the parse succeeds (with retcode 200):
Python's `self.retcode = self.retcode or group` treats the recorded 0 as
unset, so the claimed guarantee fails for status 0. -/
theorem c5_counterexample :
    parse_apidoc docC5zero = .ok ([epC5], []) ∧
    epC5.retcode = some 200 ∧
    declaredStatus ("@apiSuccess (0) \x7bString\x7d data d".toList) =
      some 0 ∧
    declaredStatus ("@apiSuccess (200) \x7bString\x7d data d".toList) =
      some 200 :=
  ⟨rfl, rfl, rfl, rfl⟩


/-- Helper: a response line with a parsed status contributes it to the
segment's status list. -/
theorem segStatuses_cons_success (l : Str) (rest : List Str) (n : Int)
    (hs : startsW apiSuccessTag l = true) (hd : declaredStatus l = some n) :
    segStatuses (l :: rest) = n :: segStatuses rest := by
  simp only [segStatuses, List.filterMap_cons, hs, if_true, hd]

/-- Helper: a non-response line contributes no status. -/
theorem segStatuses_cons_other (l : Str) (rest : List Str)
    (hs : startsW apiSuccessTag l = false) :
    segStatuses (l :: rest) = segStatuses rest := by
  simp only [segStatuses, List.filterMap_cons, hs, Bool.false_eq_true,
    if_false]

/-- Helper: `add_param` succeeds whenever its `Param` parses. -/
theorem add_param_ok (ep : ApiEndpoint) (g t : Option Str) (f d : Str)
    (hok : (Param.init t f d).isOk = true) :
    ∃ ep2, ep.add_param g t f d = .ok ep2 := by
  simp only [ApiEndpoint.add_param]
  cases hpi : Param.init t f d with
  | error e => rw [hpi] at hok; simp [Except.isOk, Except.toBool] at hok
  | ok p => exact ⟨_, rfl⟩

/-- Helper: `add_success` succeeds whenever the group parses, the `Param`
parses and the truthiness-updated retcode check passes. -/
theorem add_success_ok (ep : ApiEndpoint) (g t : Option Str) (f d : Str)
    (n : Int) (hn : successGroupStatus g = some n)
    (hok : (Param.init (successTypeDefault t) f d).isOk = true)
    (hcond : n = pyOr ep.retcode n) :
    ∃ ep2, ep.add_success g t f d = .ok ep2 := by
  simp only [ApiEndpoint.add_success, hn]
  rw [if_neg (by simpa using hcond)]
  cases hpi : Param.init (successTypeDefault t) f d with
  | error e => rw [hpi] at hok; simp [Except.isOk, Except.toBool] at hok
  | ok p => exact ⟨_, rfl⟩

/-- Helper: once a nonzero retcode is established, equal statuses keep the
`add_success` chain successful. -/
theorem segOk_all_eq (s : Int) (hs : s ≠ 0) (ss : List Int)
    (hall : ss.all (fun x => x = s) = true) : segOk (some s) ss = true := by
  induction ss with
  | nil => rfl
  | cons x rest ih =>
    simp only [List.all_cons, Bool.and_eq_true, decide_eq_true_eq] at hall
    obtain ⟨hx, hall2⟩ := hall
    subst hx
    have hpy : pyOr (some x) x = x := by simp [pyOr, hs]
    simp only [segOk, hpy, decide_eq_true_eq, Bool.and_eq_true]
    exact ⟨by trivial, ih hall2⟩

/-- Helper: consistent (all-equal nonzero) statuses satisfy the
`add_success` chain from a fresh endpoint. -/
theorem segOk_of_consistent (ss : List Int)
    (h : statusesConsistent ss = true) : segOk none ss = true := by
  cases ss with
  | nil => rfl
  | cons s rest =>
    simp only [statusesConsistent, Bool.and_eq_true, decide_eq_true_eq] at h
    obtain ⟨hs, hall⟩ := h
    simp only [segOk, pyOr, decide_eq_true_eq, Bool.and_eq_true]
    exact ⟨by trivial, segOk_all_eq s hs rest hall⟩

/-- Helper: folding a segment never changes the identifying fields of the
endpoint. -/
theorem foldSeg_fields (seg : List Str) : ∀ ep : ApiEndpoint,
    (foldSeg ep seg).method = ep.method ∧ (foldSeg ep seg).uri = ep.uri ∧
      (foldSeg ep seg).title = ep.title := by
  induction seg with
  | nil => intro ep; exact ⟨rfl, rfl, rfl⟩
  | cons l rest ih =>
    intro ep
    simp only [foldSeg]
    by_cases hp : startsW apiParamTag l = true
    · simp only [hp, if_true]
      rcases hpt : parseTagRest (List.drop 9 l) with ⟨g, t, f, d⟩
      cases hap : ep.add_param g t f d with
      | error e =>
        exact ih ep
      | ok ep2 =>
        obtain ⟨_, hm, hu, _, ht⟩ := add_param_fields ep g t f d ep2 hap
        obtain ⟨im, iu, it⟩ := ih ep2
        exact ⟨by rw [im, hm], by rw [iu, hu], by rw [it, ht]⟩
    · simp only [hp, Bool.false_eq_true, if_false]
      by_cases hsuc : startsW apiSuccessTag l = true
      · simp only [hsuc, if_true]
        rcases hpt : parseTagRest (List.drop 11 l) with ⟨g, t, f, d⟩
        cases has : ep.add_success g t f d with
        | error e => exact ih ep
        | ok ep2 =>
          obtain ⟨n, _, _, _, hm, hu, _, ht⟩ :=
            add_success_spec ep g t f d ep2 has
          obtain ⟨im, iu, it⟩ := ih ep2
          exact ⟨by rw [im, hm], by rw [iu, hu], by rw [it, ht]⟩
      · simp only [hsuc, Bool.false_eq_true, if_false]
        exact ih ep

/-- Helper: on a well-formed segment the line loop agrees with the total
fold `foldSeg`. -/
theorem parse_seg (seg : List Str) : ∀ (rest2 : List Str)
    (fin : List ApiEndpoint) (ep : ApiEndpoint) (ws : List Warning),
    (∀ l ∈ seg, isDeclLine l = false) →
    (∀ l ∈ seg, wfSegLine l = true) →
    segOk ep.retcode (segStatuses seg) = true →
    parseLines fin (some ep) ws (seg ++ rest2) =
      parseLines fin (some (foldSeg ep seg)) ws rest2 := by
  induction seg with
  | nil => intro rest2 fin ep ws _ _ _; rfl
  | cons l rest ih =>
    intro rest2 fin ep ws hnd hwf hok
    have hd : isDeclLine l = false := hnd l (by simp)
    have hd' : startsW apiTag l = false := hd
    have hwl : wfSegLine l = true := hwf l (by simp)
    rw [List.cons_append]
    simp only [parseLines, hd', Bool.false_eq_true, if_false]
    by_cases hp : startsW apiParamTag l = true
    · have hs : startsW apiSuccessTag l = false :=
        not_startsW_of_startsW l apiParamTag apiSuccessTag hp
          (by decide) (by decide)
      simp only [wfSegLine, hp, if_true] at hwl
      rw [if_pos hp]
      rcases hpt : parseTagRest (List.drop 9 l) with ⟨g, t, f, d⟩
      simp only [hpt]
      simp only [wfParamLine, hpt] at hwl
      obtain ⟨ep2, hap⟩ := add_param_ok ep g t f d hwl
      simp only [hap]
      have hrc := (add_param_fields ep g t f d ep2 hap).1
      have hok2 : segOk ep2.retcode (segStatuses rest) = true := by
        rw [hrc, ← segStatuses_cons_other l rest hs]
        exact hok
      rw [ih rest2 fin ep2 ws (fun x hx => hnd x (by simp [hx]))
        (fun x hx => hwf x (by simp [hx])) hok2]
      simp only [foldSeg, hp, if_true, hpt, hap]
    · rw [if_neg hp]
      have hp' : startsW apiParamTag l = false := by simpa using hp
      by_cases hsuc : startsW apiSuccessTag l = true
      · simp only [wfSegLine, hp', Bool.false_eq_true, if_false, hsuc,
          if_true] at hwl
        rw [if_pos hsuc]
        rcases hpt : parseTagRest (List.drop 11 l) with ⟨g, t, f, d⟩
        simp only [hpt]
        simp only [wfSuccessLine, hpt, Bool.and_eq_true] at hwl
        obtain ⟨hgs, hpi⟩ := hwl
        cases hgn : successGroupStatus g with
        | none => rw [hgn] at hgs; simp at hgs
        | some n =>
          have hds : declaredStatus l = some n := by
            simp only [declaredStatus, hpt]
            exact hgn
          rw [segStatuses_cons_success l rest n hsuc hds] at hok
          simp only [segOk, Bool.and_eq_true, decide_eq_true_eq] at hok
          obtain ⟨hcond, hok2⟩ := hok
          obtain ⟨ep2, has⟩ := add_success_ok ep g t f d n hgn hpi hcond
          simp only [has]
          obtain ⟨n2, hn2, _, hrc2, _⟩ := add_success_spec ep g t f d ep2 has
          have hn2n : n2 = n := by
            rw [hgn] at hn2
            injection hn2 with h3
            exact h3.symm
          subst hn2n
          have hok2' : segOk ep2.retcode (segStatuses rest) = true := by
            rw [hrc2]
            exact hok2
          rw [ih rest2 fin ep2 ws (fun x hx => hnd x (by simp [hx]))
            (fun x hx => hwf x (by simp [hx])) hok2']
          simp only [foldSeg, hp', Bool.false_eq_true, if_false, hsuc,
            if_true, hpt, has]
      · rw [if_neg hsuc]
        have hsuc' : startsW apiSuccessTag l = false := by simpa using hsuc
        have hok2 : segOk ep.retcode (segStatuses rest) = true := by
          rw [← segStatuses_cons_other l rest hsuc']
          exact hok
        rw [ih rest2 fin ep ws (fun x hx => hnd x (by simp [hx]))
          (fun x hx => hwf x (by simp [hx])) hok2]
        simp only [foldSeg, hp', Bool.false_eq_true, if_false, hsuc',
          if_false]

/-- Helper: an established nonzero retcode survives folding a segment whose
statuses all equal it. -/
theorem foldSeg_retcode_keep (seg : List Str) : ∀ (ep : ApiEndpoint)
    (s : Int), ep.retcode = some s → s ≠ 0 →
    (segStatuses seg).all (fun x => x = s) = true →
    (foldSeg ep seg).retcode = some s := by
  induction seg with
  | nil => intro ep s hrc _ _; exact hrc
  | cons l rest ih =>
    intro ep s hrc hs hall
    simp only [foldSeg]
    by_cases hp : startsW apiParamTag l = true
    · have hsn : startsW apiSuccessTag l = false :=
        not_startsW_of_startsW l apiParamTag apiSuccessTag hp
          (by decide) (by decide)
      rw [segStatuses_cons_other l rest hsn] at hall
      simp only [hp, if_true]
      rcases hpt : parseTagRest (List.drop 9 l) with ⟨g, t, f, d⟩
      cases hap : ep.add_param g t f d with
      | error e => exact ih ep s hrc hs hall
      | ok ep2 =>
        have hrc2 := (add_param_fields ep g t f d ep2 hap).1
        exact ih ep2 s (by rw [hrc2, hrc]) hs hall
    · simp only [hp, Bool.false_eq_true, if_false]
      by_cases hsuc : startsW apiSuccessTag l = true
      · simp only [hsuc, if_true]
        rcases hpt : parseTagRest (List.drop 11 l) with ⟨g, t, f, d⟩
        cases has : ep.add_success g t f d with
        | error e =>
          cases hds : declaredStatus l with
          | none =>
            have : segStatuses (l :: rest) = segStatuses rest := by
              simp only [segStatuses, List.filterMap_cons, hsuc, if_true, hds]
            rw [this] at hall
            exact ih ep s hrc hs hall
          | some n =>
            rw [segStatuses_cons_success l rest n hsuc hds] at hall
            simp only [List.all_cons, Bool.and_eq_true] at hall
            exact ih ep s hrc hs hall.2
        | ok ep2 =>
          obtain ⟨n, hn, hcond, hrc2, _⟩ := add_success_spec ep g t f d ep2 has
          have hds : declaredStatus l = some n := by
            simp only [declaredStatus, hpt]
            exact hn
          rw [segStatuses_cons_success l rest n hsuc hds] at hall
          simp only [List.all_cons, Bool.and_eq_true, decide_eq_true_eq]
            at hall
          obtain ⟨hns, hall2⟩ := hall
          have : ep2.retcode = some s := by
            rw [hrc2, hrc]
            simp [pyOr, hs]
          exact ih ep2 s this hs hall2
      · have hsuc' : startsW apiSuccessTag l = false := by simpa using hsuc
        rw [segStatuses_cons_other l rest hsuc'] at hall
        simp only [hsuc', Bool.false_eq_true, if_false]
        exact ih ep s hrc hs hall

/-- Helper: folding a well-formed segment from a fresh endpoint records its
first declared status (or nothing when the segment declares none). -/
theorem foldSeg_retcode (seg : List Str) : ∀ ep : ApiEndpoint,
    ep.retcode = none →
    (∀ l ∈ seg, wfSegLine l = true) →
    statusesConsistent (segStatuses seg) = true →
    (foldSeg ep seg).retcode =
      (match segStatuses seg with
       | [] => none
       | s :: _ => some s) := by
  induction seg with
  | nil => intro ep hrc _ _; exact hrc
  | cons l rest ih =>
    intro ep hrc hwf hcons
    simp only [foldSeg]
    by_cases hp : startsW apiParamTag l = true
    · have hsn : startsW apiSuccessTag l = false :=
        not_startsW_of_startsW l apiParamTag apiSuccessTag hp
          (by decide) (by decide)
      rw [segStatuses_cons_other l rest hsn] at hcons ⊢
      simp only [hp, if_true]
      rcases hpt : parseTagRest (List.drop 9 l) with ⟨g, t, f, d⟩
      cases hap : ep.add_param g t f d with
      | error e => exact ih ep hrc (fun x hx => hwf x (by simp [hx])) hcons
      | ok ep2 =>
        have hrc2 := (add_param_fields ep g t f d ep2 hap).1
        exact ih ep2 (by rw [hrc2, hrc])
          (fun x hx => hwf x (by simp [hx])) hcons
    · have hp' : startsW apiParamTag l = false := by simpa using hp
      simp only [hp', Bool.false_eq_true, if_false]
      by_cases hsuc : startsW apiSuccessTag l = true
      · simp only [hsuc, if_true]
        have hwl := hwf l (by simp)
        simp only [wfSegLine, hp', Bool.false_eq_true, if_false, hsuc,
          if_true] at hwl
        rcases hpt : parseTagRest (List.drop 11 l) with ⟨g, t, f, d⟩
        simp only [wfSuccessLine, hpt, Bool.and_eq_true] at hwl
        obtain ⟨hgs, hpi⟩ := hwl
        cases hgn : successGroupStatus g with
        | none => rw [hgn] at hgs; simp at hgs
        | some n =>
          have hds : declaredStatus l = some n := by
            simp only [declaredStatus, hpt]
            exact hgn
          rw [segStatuses_cons_success l rest n hsuc hds] at hcons ⊢
          simp only [statusesConsistent, Bool.and_eq_true, decide_eq_true_eq]
            at hcons
          obtain ⟨hn0, hall⟩ := hcons
          have hcond : n = pyOr ep.retcode n := by rw [hrc]; rfl
          obtain ⟨ep2, has⟩ := add_success_ok ep g t f d n hgn hpi hcond
          simp only [has]
          obtain ⟨n2, hn2, _, hrc2, _⟩ := add_success_spec ep g t f d ep2 has
          have hn2n : n2 = n := by
            rw [hgn] at hn2
            injection hn2 with h3
            exact h3.symm
          rw [hn2n] at hrc2
          have hrc2' : ep2.retcode = some n := by
            rw [hrc2, hrc]
            rfl
          exact foldSeg_retcode_keep rest ep2 n hrc2' hn0 hall
      · have hsuc' : startsW apiSuccessTag l = false := by simpa using hsuc
        rw [segStatuses_cons_other l rest hsuc'] at hcons ⊢
        simp only [hsuc', Bool.false_eq_true, if_false]
        exact ih ep hrc (fun x hx => hwf x (by simp [hx])) hcons

/-- Helper: the line loop over a well-formed block list, entered while an
endpoint is still open: it finalizes the open endpoint and appends one
endpoint per block. -/
theorem parse_blocks_aux : ∀ (n : Nat) (lines : List Str),
    lines.length ≤ n → wfBlocks lines = true →
    ∀ (fin : List ApiEndpoint) (ep : ApiEndpoint) (ws : List Warning),
    ∃ ws2, parseLines fin (some ep) ws lines =
      .ok (fin ++ finalizeRetcode ep :: blockEndpoints lines, ws ++ ws2) := by
  intro n
  induction n with
  | zero =>
    intro lines hlen hwb fin ep ws
    have hnil : lines = [] := List.eq_nil_of_length_eq_zero
      (Nat.le_zero.mp hlen)
    subst hnil
    exact ⟨[], by simp [parseLines, blockEndpoints]⟩
  | succ n ih =>
    intro lines hlen hwb fin ep ws
    cases lines with
    | nil => exact ⟨[], by simp [parseLines, blockEndpoints]⟩
    | cons l rest =>
      simp only [wfBlocks, Bool.and_eq_true] at hwb
      obtain ⟨⟨⟨hdecl, hpd⟩, hseg⟩, hwb2⟩ := hwb
      cases hdl : parseDeclLine l with
      | error e => rw [hdl] at hpd; simp [Except.isOk, Except.toBool] at hpd
      | ok pair =>
        obtain ⟨ep0, wsd⟩ := pair
        have hd' : startsW apiTag l = true := hdecl
        have hsplit : rest.takeWhile (fun x => !isDeclLine x) ++
            rest.dropWhile (fun x => !isDeclLine x) = rest :=
          List.takeWhile_append_dropWhile _ _
        set seg := rest.takeWhile (fun x => !isDeclLine x) with hsegdef
        set rest2 := rest.dropWhile (fun x => !isDeclLine x) with hrest2def
        simp only [wfSeg, Bool.and_eq_true] at hseg
        obtain ⟨hsegwf, hsegcons⟩ := hseg
        have hbe : blockEndpoints (l :: rest) =
            finalizeRetcode (foldSeg ep0 seg) :: blockEndpoints rest2 := by
          simp only [blockEndpoints, hdecl, if_true, hdl]
        have hlen2 : rest2.length ≤ n := by
          have h1 : rest2.length ≤ rest.length := by
            rw [hrest2def]
            exact length_dropWhile_le' _ _
          have h2 : rest.length ≤ n := by
            simpa [Nat.succ_le_succ_iff] using hlen
          exact Nat.le_trans h1 h2
        obtain ⟨ws2', heq⟩ := ih rest2 hlen2 hwb2
          (fin ++ [finalizeRetcode ep]) (foldSeg ep0 seg) (ws ++ wsd)
        refine ⟨wsd ++ ws2', ?_⟩
        rw [hbe]
        simp only [parseLines, hd', if_true, hdl]
        rw [show rest = seg ++ rest2 from hsplit.symm]
        rw [parse_seg seg rest2 (fin ++ [finalizeRetcode ep]) ep0 (ws ++ wsd)
          (fun x hx => by
            have := List.mem_takeWhile_imp hx
            simpa using this)
          (fun x hx => List.all_eq_true.mp hsegwf x hx)
          (by
            rw [parseDeclLine_fields l ep0 wsd hdl]
            exact segOk_of_consistent _ hsegcons)]
        rw [heq]
        simp

/-- Helper: the line loop over a well-formed block list entered with no open
endpoint. -/
theorem parse_blocks_none (lines : List Str) (hwb : wfBlocks lines = true)
    (fin : List ApiEndpoint) (ws : List Warning) :
    ∃ ws2, parseLines fin none ws lines =
      .ok (fin ++ blockEndpoints lines, ws ++ ws2) := by
  cases lines with
  | nil => exact ⟨[], by simp [parseLines, blockEndpoints]⟩
  | cons l rest =>
    simp only [wfBlocks, Bool.and_eq_true] at hwb
    obtain ⟨⟨⟨hdecl, hpd⟩, hseg⟩, hwb2⟩ := hwb
    cases hdl : parseDeclLine l with
    | error e => rw [hdl] at hpd; simp [Except.isOk, Except.toBool] at hpd
    | ok pair =>
      obtain ⟨ep0, wsd⟩ := pair
      have hd' : startsW apiTag l = true := hdecl
      have hsplit : rest.takeWhile (fun x => !isDeclLine x) ++
          rest.dropWhile (fun x => !isDeclLine x) = rest :=
        List.takeWhile_append_dropWhile _ _
      set seg := rest.takeWhile (fun x => !isDeclLine x) with hsegdef
      set rest2 := rest.dropWhile (fun x => !isDeclLine x) with hrest2def
      simp only [wfSeg, Bool.and_eq_true] at hseg
      obtain ⟨hsegwf, hsegcons⟩ := hseg
      have hbe : blockEndpoints (l :: rest) =
          finalizeRetcode (foldSeg ep0 seg) :: blockEndpoints rest2 := by
        simp only [blockEndpoints, hdecl, if_true, hdl]
      obtain ⟨ws2', heq⟩ := parse_blocks_aux rest2.length rest2
        (Nat.le_refl _) hwb2 fin (foldSeg ep0 seg) (ws ++ wsd)
      refine ⟨wsd ++ ws2', ?_⟩
      rw [hbe]
      simp only [parseLines, hd', if_true, hdl]
      rw [show rest = seg ++ rest2 from hsplit.symm]
      rw [parse_seg seg rest2 fin ep0 (ws ++ wsd)
        (fun x hx => by
          have := List.mem_takeWhile_imp hx
          simpa using this)
        (fun x hx => List.all_eq_true.mp hsegwf x hx)
        (by
          rw [parseDeclLine_fields l ep0 wsd hdl]
          exact segOk_of_consistent _ hsegcons)]
      rw [heq]
      simp

/-- Helper: lines before the first declaration that carry no parameter or
response tag are skipped. -/
theorem parse_skip_pre (lines : List Str) : ∀ (fin : List ApiEndpoint)
    (ws : List Warning),
    (∀ l ∈ lines.takeWhile (fun x => !isDeclLine x),
        startsW apiParamTag l = false ∧ startsW apiSuccessTag l = false) →
    parseLines fin none ws lines =
      parseLines fin none ws (lines.dropWhile (fun x => !isDeclLine x)) := by
  induction lines with
  | nil => intro fin ws _; rfl
  | cons l rest ih =>
    intro fin ws hpre
    by_cases hd : isDeclLine l = true
    · rw [List.dropWhile_cons]
      simp [hd]
    · have hd' : startsW apiTag l = false := by simpa [isDeclLine] using hd
      have hmem : l ∈ (l :: rest).takeWhile (fun x => !isDeclLine x) := by
        rw [List.takeWhile_cons]
        simp [hd]
      obtain ⟨hp, hs⟩ := hpre l hmem
      rw [List.dropWhile_cons]
      have hb : (!isDeclLine l) = true := by simp [hd]
      rw [if_pos hb]
      simp only [parseLines, hd', Bool.false_eq_true, if_false, hp, hs]
      exact ih fin ws (fun x hx => hpre x (by
        rw [List.takeWhile_cons]
        simp only [hb, if_true]
        simp [hx]))

/-- Helper: retcode finalization keeps the identifying fields. -/
theorem finalizeRetcode_fields (ep : ApiEndpoint) :
    (finalizeRetcode ep).method = ep.method ∧
      (finalizeRetcode ep).uri = ep.uri ∧
      (finalizeRetcode ep).title = ep.title := by
  unfold finalizeRetcode
  split
  · exact ⟨rfl, rfl, rfl⟩
  · split
    · exact ⟨rfl, rfl, rfl⟩
    · exact ⟨rfl, rfl, rfl⟩

/-- Helper: the block endpoints are in bijection with the declaration
lines, carry the declared method/uri/title, and record each block's
expected status. -/
theorem blocks_props : ∀ (n : Nat) (lines : List Str), lines.length ≤ n →
    wfBlocks lines = true →
    (blockEndpoints lines).map (fun e => (e.method, e.uri, e.title)) =
      (declLinesOf lines).map declTriple ∧
    (blockEndpoints lines).map (fun e => e.retcode) =
      (blockSegs lines).map (fun b => some (expectedStatusOfSeg b.2)) := by
  intro n
  induction n with
  | zero =>
    intro lines hlen _
    have hnil : lines = [] := List.eq_nil_of_length_eq_zero
      (Nat.le_zero.mp hlen)
    subst hnil
    exact ⟨by simp [blockEndpoints, declLinesOf], by simp [blockEndpoints, blockSegs]⟩
  | succ n ih =>
    intro lines hlen hwb
    cases lines with
    | nil => exact ⟨by simp [blockEndpoints, declLinesOf], by simp [blockEndpoints, blockSegs]⟩
    | cons l rest =>
      simp only [wfBlocks, Bool.and_eq_true] at hwb
      obtain ⟨⟨⟨hdecl, hpd⟩, hseg⟩, hwb2⟩ := hwb
      cases hdl : parseDeclLine l with
      | error e => rw [hdl] at hpd; simp [Except.isOk, Except.toBool] at hpd
      | ok pair =>
        obtain ⟨ep0, wsd⟩ := pair
        have hsplit : rest.takeWhile (fun x => !isDeclLine x) ++
            rest.dropWhile (fun x => !isDeclLine x) = rest :=
          List.takeWhile_append_dropWhile _ _
        set seg := rest.takeWhile (fun x => !isDeclLine x) with hsegdef
        set rest2 := rest.dropWhile (fun x => !isDeclLine x) with hrest2def
        simp only [wfSeg, Bool.and_eq_true] at hseg
        obtain ⟨hsegwf, hsegcons⟩ := hseg
        have hbe : blockEndpoints (l :: rest) =
            finalizeRetcode (foldSeg ep0 seg) :: blockEndpoints rest2 := by
          simp only [blockEndpoints, hdecl, if_true, hdl]
        have hbs : blockSegs (l :: rest) = (l, seg) :: blockSegs rest2 := by
          simp only [blockSegs, hdecl, if_true]
        have hdlof : declLinesOf (l :: rest) = l :: declLinesOf rest2 := by
          simp only [declLinesOf, List.filter_cons, hdecl, if_true]
          congr 1
          rw [show rest = seg ++ rest2 from hsplit.symm, List.filter_append]
          rw [show seg.filter (fun l => isDeclLine l) = [] from ?_]
          · simp
          · rw [List.filter_eq_nil_iff]
            intro a ha
            have := List.mem_takeWhile_imp ha
            simp at this
            simp [this]
        have hlen2 : rest2.length ≤ n := by
          have h1 : rest2.length ≤ rest.length := by
            rw [hrest2def]
            exact length_dropWhile_le' _ _
          have h2 : rest.length ≤ n := by
            simpa [Nat.succ_le_succ_iff] using hlen
          exact Nat.le_trans h1 h2
        obtain ⟨iht, ihr⟩ := ih rest2 hlen2 hwb2
        have hrcnone : ep0.retcode = none := parseDeclLine_fields l ep0 wsd hdl
        constructor
        · rw [hbe, hdlof, List.map_cons, List.map_cons, iht]
          congr 1
          obtain ⟨fm, fu, ft⟩ := finalizeRetcode_fields (foldSeg ep0 seg)
          obtain ⟨gm, gu, gt⟩ := foldSeg_fields seg ep0
          rw [fm, fu, ft, gm, gu, gt]
          simp only [declTriple, hdl]
        · rw [hbe, hbs, List.map_cons, List.map_cons, ihr]
          congr 1
          have hfrc := foldSeg_retcode seg ep0 hrcnone
            (fun x hx => List.all_eq_true.mp hsegwf x hx) hsegcons
          cases hss : segStatuses seg with
          | nil =>
            rw [hss] at hfrc
            have hfrc2 : (foldSeg ep0 seg).retcode = none := hfrc
            have hexp : expectedStatusOfSeg seg = 200 := by
              simp only [expectedStatusOfSeg, hss]
            rw [hexp]
            simp only [finalizeRetcode, hfrc2]
          | cons s srest =>
            rw [hss] at hfrc
            have hfrc2 : (foldSeg ep0 seg).retcode = some s := hfrc
            have hs0 : s ≠ 0 := by
              rw [hss] at hsegcons
              simp only [statusesConsistent, Bool.and_eq_true,
                decide_eq_true_eq] at hsegcons
              exact hsegcons.1
            have hexp : expectedStatusOfSeg seg = s := by
              simp only [expectedStatusOfSeg, hss]
            rw [hexp]
            simp only [finalizeRetcode, hfrc2]
            rw [if_neg hs0]
            exact hfrc2

/-- Helper: the declaration lines are unaffected by dropping the pre-block
prefix. -/
theorem declLinesOf_dropWhile (lines : List Str) :
    declLinesOf lines =
      declLinesOf (lines.dropWhile (fun x => !isDeclLine x)) := by
  induction lines with
  | nil => rfl
  | cons l rest ih =>
    by_cases hd : isDeclLine l = true
    · rw [List.dropWhile_cons]
      simp [hd]
    · rw [List.dropWhile_cons]
      have hb : (!isDeclLine l) = true := by simp [hd]
      rw [if_pos hb]
      rw [← ih]
      simp only [declLinesOf, List.filter_cons]
      have hd' : isDeclLine l = false := by simpa using hd
      simp [hd']

/-- Helper: the blocks are unaffected by dropping the pre-block prefix. -/
theorem blockSegs_dropWhile (lines : List Str) :
    blockSegs lines =
      blockSegs (lines.dropWhile (fun x => !isDeclLine x)) := by
  induction lines with
  | nil => rfl
  | cons l rest ih =>
    by_cases hd : isDeclLine l = true
    · rw [List.dropWhile_cons]
      simp [hd]
    · rw [List.dropWhile_cons]
      have hb : (!isDeclLine l) = true := by simp [hd]
      rw [if_pos hb]
      rw [← ih]
      have hd' : isDeclLine l = false := by simpa using hd
      simp only [blockSegs, hd', Bool.false_eq_true, if_false]

/-- C7: on a well-formed document the parser succeeds with exactly one
descriptor per declaration line, in declaration order (same length, and
the i-th descriptor carries the i-th declaration line's method, uri and
title), and each descriptor's retcode is the status group its response
lines declared, or 200 when none did. -/
theorem c7_parser_per_decl_line (text : Str)
    (hwf : wellFormedDoc (splitChar '\n' text) = true) :
    ∃ (eps : List ApiEndpoint) (ws : List Warning),
      parse_apidoc text = .ok (eps, ws) ∧
      eps.length = (declLinesOf (splitChar '\n' text)).length ∧
      eps.map (fun e => (e.method, e.uri, e.title)) =
        (declLinesOf (splitChar '\n' text)).map declTriple ∧
      eps.map (fun e => e.retcode) =
        (blockSegs (splitChar '\n' text)).map
          (fun b => some (expectedStatusOfSeg b.2)) := by
  simp only [wellFormedDoc, Bool.and_eq_true] at hwf
  obtain ⟨hpre, hwb⟩ := hwf
  have hskip := parse_skip_pre (splitChar '\n' text) [] []
    (fun l hl => by
      have h2 := List.all_eq_true.mp hpre l hl
      rw [Bool.and_eq_true] at h2
      exact ⟨by simpa using h2.1, by simpa using h2.2⟩)
  obtain ⟨ws2, hres⟩ := parse_blocks_none
    ((splitChar '\n' text).dropWhile (fun x => !isDeclLine x)) hwb [] []
  obtain ⟨ptri, pret⟩ := blocks_props
    ((splitChar '\n' text).dropWhile (fun x => !isDeclLine x)).length
    ((splitChar '\n' text).dropWhile (fun x => !isDeclLine x))
    (Nat.le_refl _) hwb
  refine ⟨blockEndpoints
    ((splitChar '\n' text).dropWhile (fun x => !isDeclLine x)), ws2,
    ?_, ?_, ?_, ?_⟩
  · show parseLines [] none [] (splitChar '\n' text) = _
    rw [hskip, hres]
    simp
  · rw [declLinesOf_dropWhile (splitChar '\n' text)]
    have := congrArg List.length ptri
    simpa using this
  · rw [declLinesOf_dropWhile (splitChar '\n' text)]
    exact ptri
  · rw [blockSegs_dropWhile (splitChar '\n' text)]
    exact pret

/-- Witness for C7 on a concrete two-line document. -/
theorem c7_parser_per_decl_line_witness :
    wellFormedDoc (splitChar '\n' docW7) = true ∧
    (∃ (eps : List ApiEndpoint) (ws : List Warning),
      parse_apidoc docW7 = .ok (eps, ws) ∧
      eps.length = (declLinesOf (splitChar '\n' docW7)).length ∧
      eps.map (fun e => (e.method, e.uri, e.title)) =
        (declLinesOf (splitChar '\n' docW7)).map declTriple ∧
      eps.map (fun e => e.retcode) =
        (blockSegs (splitChar '\n' docW7)).map
          (fun b => some (expectedStatusOfSeg b.2))) := by
  have h : wellFormedDoc (splitChar '\n' docW7) = true := by
    simp +decide [wellFormedDoc, wfBlocks, wfSeg, wfSegLine, wfSuccessLine,
      statusesConsistent, segStatuses, isDeclLine, apiTag, apiParamTag,
      apiSuccessTag, startsW, parseDeclLine, splitChar, docW7, parseTagRest,
      successGroupStatus, successTypeDefault, parseInt, strLower,
      declaredStatus, Param.init, endsWC, stripQuote, stripQuotes, API_URI_BASE,
      joinChar, Except.isOk, Except.toBool]
  exact ⟨h, c7_parser_per_decl_line docW7 h⟩
